import Mathlib

/-!
Verification of the QFQ-RL packet scheduler core (net/sched/sch_qfq.c).

This file gives a shallow embedding of the scheduler's data model and of the
operations referenced by the claims: the fixed-point/bitmap primitives, group
state computation, slot-ring manipulation, virtual-clock advancement, class
activation/deactivation, dequeue, drop and the control-plane class-change
entry point.  Machine integers are modelled as `Nat` with explicit reduction
modulo `2^64` (resp. `2^32`) at the points where the C code can wrap.
The per-class sub-queue (an external collaborator in the spec) is modelled as
a list of packet lengths.
-/

namespace QfqRL

/-! ## Numeric constants (sch_qfq.c lines 81-119) -/

def QFQ_MAX_SLOTS : Nat := 32

def QFQ_MAX_INDEX : Nat := 19

def QFQ_MAX_WSHIFT : Nat := 16

def QFQ_MAX_WEIGHT : Nat := 2 ^ QFQ_MAX_WSHIFT

def QFQ_MAX_WSUM : Nat := 2 * QFQ_MAX_WEIGHT

def FRAC_BITS : Nat := 30

def ONE_FP : Nat := 2 ^ FRAC_BITS

def QFQ_MTU_SHIFT : Nat := 11

def QFQ_MIN_SLOT_SHIFT : Nat := FRAC_BITS + QFQ_MTU_SHIFT - QFQ_MAX_INDEX

def LINK_SPEED : Nat := 9800

def NSEC_PER_SEC : Nat := 1000000000

set_option maxRecDepth 1000000 in
set_option maxRecDepth 1000000 in
set_option maxRecDepth 1000000 in
/-- QFQ_DRAIN_RATE = (u64)LINK_SPEED * 125000 * ONE_FP / NSEC_PER_SEC. -/
def QFQ_DRAIN_RATE : Nat := LINK_SPEED * 125000 * ONE_FP / NSEC_PER_SEC

/-- Modulus of the 64-bit machine words (u64, unsigned long on x86-64). -/
def U64 : Nat := 2 ^ 64

/-- Modulus of the 32-bit machine words (u32, unsigned int). -/
def U32 : Nat := 2 ^ 32

/-! ## Machine-arithmetic helpers -/

/-- Subtraction of u64 values, wrapping modulo `2^64` like the C `a - b`. -/
def sub64 (a b : Nat) : Nat := (a % U64 + (U64 - b % U64)) % U64

/-- Subtraction of u32 values, wrapping modulo `2^32` like the C `a - b`. -/
def sub32 (a b : Nat) : Nat := (a % U32 + (U32 - b % U32)) % U32

/-! ## Bit primitives -/

/-- Structural helper for `ffs0`: scan the low `k` bits. -/
def ffs0Go : Nat → Nat → Nat
  | 0, _ => 0
  | k + 1, n => if n % 2 = 1 then 0 else ffs0Go k (n / 2) + 1

/-- Zero-based index of the lowest set bit of a 64-bit word; models the
kernel `__ffs` (whose result on 0 is unspecified). -/
def ffs0 (n : Nat) : Nat := ffs0Go 64 n

/-- Zero-based index of the highest set bit; models the kernel `__fls`
(unspecified on 0). -/
def fls0 (n : Nat) : Nat := Nat.log2 n

/-- One-based position of the highest set bit, 0 on input 0: the kernel
`fls` (which operates on a 32-bit int; truncation happens at call sites). -/
def fls (n : Nat) : Nat := if n = 0 then 0 else Nat.log2 n + 1

/-- mask_from(bitmap, from) = bitmap & ~((1UL << from) - 1): the bits of
`bitmap` at positions >= k (sch_qfq.c line 696). -/
def mask_from (bitmap : Nat) (k : Nat) : Nat := bitmap >>> k <<< k

/-- qfq_gt(a, b) = (s64)(a - b) > 0: wraparound-aware comparison of 64-bit
virtual times (sch_qfq.c line 677). -/
def qfq_gt (a b : Nat) : Bool :=
  let d := sub64 a b
  decide (0 < d ∧ d < 2 ^ 63)

/-- qfq_round_down(ts, shift) = ts & ~((1ULL << shift) - 1)
(sch_qfq.c line 683). -/
def qfq_round_down (ts : Nat) (shift : Nat) : Nat := ts >>> shift <<< shift

/-- Set bit `i`: models `__set_bit(i, &w)`. -/
def set_bit (w i : Nat) : Nat := w ||| 1 <<< i

/-- Clear bit `i`: models `__clear_bit(i, &w)`.  Written as the bits
above `i` joined with the bits below `i` so that it is exact for every
natural number and computes by kernel-supported shift/mod/or. -/
def clear_bit (w i : Nat) : Nat := (w >>> (i + 1) <<< (i + 1)) ||| w % 2 ^ i

/-- Structural helper for `bdiff`: bitwise difference of the low k bits. -/
def bdiffGo : Nat → Nat → Nat → Nat
  | 0, _, _ => 0
  | k + 1, a, m =>
    2 * bdiffGo k (a / 2) (m / 2) + (if a % 2 = 1 ∧ m % 2 = 0 then 1 else 0)

/-- Bitwise difference `a & ~m` on 64-bit words: models the C
`w &= ~mask` statements (exact for a < 2^64). -/
def bdiff (a m : Nat) : Nat := bdiffGo 64 a m

/-! ## Data model (struct qfq_class, struct qfq_group, struct qfq_sched) -/

/-- struct qfq_class (sch_qfq.c line 134).  The per-class sub-queue
(`cl->qdisc`, an external collaborator per the spec) is modelled as the
list of the lengths of its queued packets, head first. -/
structure QfqClass where
  S : Nat
  F : Nat
  inv_w : Nat
  lmax : Nat
  grp : Nat
  queue : List Nat
deriving DecidableEq, Inhabited

/-- struct qfq_group (sch_qfq.c line 167).  The slot ring
`slots[0..QFQ_MAX_SLOTS)` holds lists of class ids (hlists, head first). -/
structure QfqGroup where
  S : Nat
  F : Nat
  slot_shift : Nat
  index : Nat
  front : Nat
  full_slots : Nat
  slots : Nat → List Nat

instance : Inhabited QfqGroup :=
  ⟨{ S := 0, F := 0, slot_shift := 0, index := 0, front := 0, full_slots := 0,
     slots := fun _ => [] }⟩

/-- struct qfq_sched (sch_qfq.c line 178).  `bitmaps s` for
s = ER(0), IR(1), EB(2), IB(3); `classes` maps class ids to class records
and `classIds` lists the registered ids (the class hash).  `sch_qlen`
models `sch->q.qlen` (the number of activated classes). -/
structure QfqSched where
  V : Nat
  wsum : Nat
  wsum_active : Nat
  bitmaps : Nat → Nat
  groups : Nat → QfqGroup
  classes : Nat → QfqClass
  classIds : List Nat
  v_last_updated : Nat
  v_diff_sum : Nat
  t_diff_sum : Nat
  sch_qlen : Nat

/-- Indices of the four states in `bitmaps` (enum qfq_state). -/
def ER : Nat := 0

def IR : Nat := 1

def EB : Nat := 2

def IB : Nat := 3

def setGroup (q : QfqSched) (i : Nat) (g : QfqGroup) : QfqSched :=
  { q with groups := fun j => if j = i then g else q.groups j }

def setClass (q : QfqSched) (cid : Nat) (cl : QfqClass) : QfqSched :=
  { q with classes := fun c => if c = cid then cl else q.classes c }

def setBitmap (q : QfqSched) (s v : Nat) : QfqSched :=
  { q with bitmaps := fun b => if b = s then v else q.bitmaps b }

/-- Set bit `i` in state bitmap `s`: `__set_bit(i, &q->bitmaps[s])`. -/
def setBitmapBit (q : QfqSched) (s i : Nat) : QfqSched :=
  setBitmap q s (set_bit (q.bitmaps s) i)

/-- Clear bit `i` in state bitmap `s`: `__clear_bit(i, &q->bitmaps[s])`. -/
def clearBitmapBit (q : QfqSched) (s i : Nat) : QfqSched :=
  setBitmap q s (clear_bit (q.bitmaps s) i)

/-! ## Index assignment (sch_qfq.c line 267) -/

/-- qfq_calc_index(inv_w, maxlen): group index for a class.  Faithful to
the C: `slot_size = (u64)maxlen * inv_w`; `index = __fls(size_map) + 1`;
the decrement fires exactly when `slot_size - (1ULL << (index +
QFQ_MIN_SLOT_SHIFT - 1))` is zero (u64 arithmetic; for u32 inputs the
product does not wrap).  The final `if (index < 0) index = 0` clamp is
vacuous here because `index >= 1` before the decrement. -/
def qfq_calc_index (inv_w : Nat) (maxlen : Nat) : Nat :=
  let slot_size := maxlen * inv_w % U64
  if inv_w = ONE_FP + 1 then 0
  else
    let size_map := slot_size >>> QFQ_MIN_SLOT_SHIFT
    if size_map = 0 then 0
    else
      let index := fls0 size_map + 1
      if slot_size = 2 ^ (index + QFQ_MIN_SLOT_SHIFT - 1) then index - 1 else index

/-! ## Group state computation (sch_qfq.c lines 689-772) -/

/-- qfq_ffs(q, bitmap): the group with the lowest index in `bitmap`. -/
def qfq_ffs (q : QfqSched) (bitmap : Nat) : QfqGroup := q.groups (ffs0 bitmap)

/-- qfq_calc_state(q, grp) for the group at array position `grpIdx`
(sch_qfq.c line 706).  Relies on ER=0, IR=1, EB=2, IB=3. -/
def qfq_calc_state (q : QfqSched) (grpIdx : Nat) : Nat :=
  let grp := q.groups grpIdx
  let state := if qfq_gt grp.S q.V then 1 else 0
  let mask := mask_from (q.bitmaps ER) grp.index
  if mask ≠ 0 then
    let next := qfq_ffs q mask
    if qfq_gt grp.F next.F then state ||| EB else state
  else state

/-- qfq_move_groups(q, mask, src, dst):
`bitmaps[dst] |= bitmaps[src] & mask; bitmaps[src] &= ~mask`
(sch_qfq.c line 729), embedded statement by statement. -/
def qfq_move_groups (q : QfqSched) (mask src dst : Nat) : QfqSched :=
  let q1 := setBitmap q dst (q.bitmaps dst ||| (q.bitmaps src &&& mask))
  setBitmap q1 src (bdiff (q1.bitmaps src) mask)

/-- qfq_unblock_groups(q, index, old_F) (sch_qfq.c line 736). -/
def qfq_unblock_groups (q : QfqSched) (index : Nat) (old_F : Nat) : QfqSched :=
  let mask := mask_from (q.bitmaps ER) (index + 1)
  if mask ≠ 0 ∧ ¬qfq_gt (qfq_ffs q mask).F old_F then q
  else
    let mask2 := (1 <<< index) - 1
    let q1 := qfq_move_groups q mask2 EB ER
    qfq_move_groups q1 mask2 IB IR

/-- qfq_make_eligible(q, old_V) (sch_qfq.c line 762).  The kernel `fls`
operates on a 32-bit int, so the xor of the shifted virtual times is
truncated to 32 bits at the call. -/
def qfq_make_eligible (q : QfqSched) (old_V : Nat) : QfqSched :=
  let vslot := q.V >>> QFQ_MIN_SLOT_SHIFT
  let old_vslot := old_V >>> QFQ_MIN_SLOT_SHIFT
  if vslot ≠ old_vslot then
    let mask := (1 <<< fls ((vslot ^^^ old_vslot) % U32)) - 1
    let q1 := qfq_move_groups q mask IR ER
    qfq_move_groups q1 mask IB EB
  else q

/-- qfq_update_eligible(q, old_V) (sch_qfq.c line 875). -/
def qfq_update_eligible (q : QfqSched) (old_V : Nat) : QfqSched :=
  if q.bitmaps IR ||| q.bitmaps IB ≠ 0 then qfq_make_eligible q old_V else q

/-! ## Slot ring (sch_qfq.c lines 780-873) -/

/-- qfq_slot_insert(q, grp, cl, roundedS) (sch_qfq.c line 780): computes
`slot = (roundedS - grp->S) >> grp->slot_shift` in u64 arithmetic, clamps
an overflowing slot to QFQ_MAX_SLOTS - 1 (rate-limited log elided), then
pushes the class at physical index `(front + slot) % QFQ_MAX_SLOTS` and
sets bit `slot` in `full_slots`. -/
def qfq_slot_insert (q : QfqSched) (grpIdx cid roundedS : Nat) : QfqSched :=
  let grp := q.groups grpIdx
  let slot0 := sub64 roundedS grp.S >>> grp.slot_shift
  let slot := if slot0 ≥ QFQ_MAX_SLOTS then QFQ_MAX_SLOTS - 1 else slot0
  let i := (grp.front + slot) % QFQ_MAX_SLOTS
  setGroup q grpIdx { grp with
    slots := fun j => if j = i then cid :: grp.slots i else grp.slots j,
    full_slots := set_bit grp.full_slots slot }

/-- qfq_slot_head(grp) (sch_qfq.c line 815): head of the front slot list;
`none` models the C dereferencing an empty hlist. -/
def qfq_slot_head (q : QfqSched) (grpIdx : Nat) : Option Nat :=
  let grp := q.groups grpIdx
  (grp.slots grp.front).head?

/-- qfq_front_slot_remove(grp) (sch_qfq.c line 824): pop the head of the
front slot; clear bit 0 of `full_slots` if the slot becomes empty. -/
def qfq_front_slot_remove (q : QfqSched) (grpIdx : Nat) : QfqSched :=
  let grp := q.groups grpIdx
  let l := (grp.slots grp.front).tail
  let fs := if l = [] then clear_bit grp.full_slots 0 else grp.full_slots
  setGroup q grpIdx { grp with
    slots := fun j => if j = grp.front then l else grp.slots j,
    full_slots := fs }

/-- qfq_slot_scan(grp) (sch_qfq.c line 839): rotate the ring so the first
non-empty slot is logical slot 0 and return its head class.  The C
returns NULL exactly when `full_slots == 0`; otherwise it returns the
hlist_entry of the front slot, which is only a meaningful class when
the slot list is non-empty (we read class id 0 in that corrupt case,
mirroring the unchecked pointer). -/
def qfq_slot_scan (q : QfqSched) (grpIdx : Nat) : QfqSched × Option Nat :=
  let grp := q.groups grpIdx
  if grp.full_slots = 0 then (q, none)
  else
    let i := ffs0 grp.full_slots
    let q1 :=
      if i > 0 then
        setGroup q grpIdx { grp with
          front := (grp.front + i) % QFQ_MAX_SLOTS,
          full_slots := grp.full_slots >>> i }
      else q
    (q1, some ((qfq_slot_head q1 grpIdx).getD 0))

/-- qfq_slot_rotate(grp, roundedS) (sch_qfq.c line 867): the shift count
`i` is a C unsigned int (truncated mod 2^32); `full_slots <<= i` wraps at
the 64-bit word and `front - i` wraps at 2^32 before the `% QFQ_MAX_SLOTS`. -/
def qfq_slot_rotate (q : QfqSched) (grpIdx roundedS : Nat) : QfqSched :=
  let grp := q.groups grpIdx
  let i := sub64 grp.S roundedS >>> grp.slot_shift % U32
  setGroup q grpIdx { grp with
    full_slots := grp.full_slots <<< i % U64,
    front := (grp.front + (U32 - i)) % QFQ_MAX_SLOTS }

/-! ## Virtual clock (sch_qfq.c line 925) -/

/-- qfq_update_system_time(q) with the wall clock reading `now` passed as
a parameter.  All arithmetic is u64. -/
def qfq_update_system_time (q : QfqSched) (now : Nat) : QfqSched :=
  let old_V := q.V
  if q.v_last_updated = now then q
  else
    let t_diff := sub64 now q.v_last_updated
    let q2 :=
      if q.t_diff_sum ≠ 0 then
        if t_diff ≥ q.t_diff_sum then
          let v_diff := q.v_diff_sum
          let t_diff2 := t_diff - q.t_diff_sum
          let v_diff2 :=
            if q.bitmaps ER = 0 then
              (v_diff + QFQ_DRAIN_RATE * t_diff2 % U64 / max LINK_SPEED q.wsum_active) % U64
            else v_diff
          { q with V := (q.V + v_diff2) % U64, v_diff_sum := 0, t_diff_sum := 0,
                   v_last_updated := now }
        else
          let v_diff := q.v_diff_sum * t_diff % U64 / q.t_diff_sum
          { q with V := (q.V + v_diff) % U64,
                   v_diff_sum := sub64 q.v_diff_sum v_diff,
                   t_diff_sum := q.t_diff_sum - t_diff,
                   v_last_updated := now }
      else if q.bitmaps ER = 0 then
        let v_diff := QFQ_DRAIN_RATE * t_diff % U64 / max LINK_SPEED q.wsum_active
        { q with V := (q.V + v_diff) % U64, v_last_updated := now }
      else
        { q with v_last_updated := now }
    qfq_update_eligible q2 old_V

/-! ## Class activation (sch_qfq.c lines 1089-1266) -/

/-- The start timestamp computed by qfq_update_start(q, cl)
(sch_qfq.c line 1089). -/
def qfq_update_start_S (q : QfqSched) (cl : QfqClass) : Nat :=
  let grp := q.groups cl.grp
  let slot_shift := grp.slot_shift
  let roundedF := qfq_round_down cl.F slot_shift
  let limit := (qfq_round_down q.V slot_shift + 1 <<< slot_shift) % U64
  if ¬qfq_gt cl.F q.V ∨ qfq_gt roundedF limit then
    let mask := mask_from (q.bitmaps ER) grp.index
    if mask ≠ 0 then
      let next := qfq_ffs q mask
      if qfq_gt roundedF next.F then
        if qfq_gt limit next.F then next.F else limit
      else q.V
    else q.V
  else cl.F

/-- qfq_update_start(q, cl): writes the computed start into `cl->S`. -/
def qfq_update_start (q : QfqSched) (cid : Nat) : QfqSched :=
  setClass q cid { q.classes cid with S := qfq_update_start_S q (q.classes cid) }

/-- qfq_activate_class(q, cl, pkt_len) (sch_qfq.c line 1214). -/
def qfq_activate_class (q : QfqSched) (cid : Nat) (pkt_len : Nat) : QfqSched :=
  let q1 := qfq_update_start q cid
  let cl := q1.classes cid
  let grpIdx := cl.grp
  let cl2 := { cl with F := (cl.S + pkt_len * cl.inv_w) % U64 }
  let q2 := setClass q1 cid cl2
  let grp := q2.groups grpIdx
  let roundedS := qfq_round_down cl2.S grp.slot_shift
  if grp.full_slots ≠ 0 ∧ ¬qfq_gt grp.S cl2.S then
    qfq_slot_insert q2 grpIdx cid roundedS
  else
    let q3 :=
      if grp.full_slots ≠ 0 then
        let q3a := qfq_slot_rotate q2 grpIdx roundedS
        let q3b := clearBitmapBit q3a IR grp.index
        clearBitmapBit q3b IB grp.index
      else q2
    let grp2 := q3.groups grpIdx
    let q4 := setGroup q3 grpIdx
      { grp2 with S := roundedS, F := (roundedS + (2 <<< grp2.slot_shift)) % U64 }
    let s := qfq_calc_state q4 grpIdx
    let q5 := setBitmapBit q4 s ((q4.groups grpIdx).index)
    qfq_slot_insert q5 grpIdx cid roundedS

/-! ## Class deactivation (sch_qfq.c lines 1269-1333) -/

/-- qfq_slot_remove(q, grp, cl) (sch_qfq.c line 1269).  The slot offset is
a C unsigned int.  `hlist_del` is modelled as erasing the class id from
the slot list it should be on. -/
def qfq_slot_remove (q : QfqSched) (grpIdx cid : Nat) : QfqSched :=
  let grp := q.groups grpIdx
  let cl := q.classes cid
  let roundedS := qfq_round_down cl.S grp.slot_shift
  let offset := sub64 roundedS grp.S >>> grp.slot_shift % U32
  let i := (grp.front + offset) % QFQ_MAX_SLOTS
  let l := (grp.slots i).erase cid
  let fs := if l = [] then clear_bit grp.full_slots offset else grp.full_slots
  setGroup q grpIdx { grp with
    slots := fun j => if j = i then l else grp.slots j,
    full_slots := fs }

/-- qfq_deactivate_class(q, cl) (sch_qfq.c line 1291), including the
guarded cross-tier unblock block with its masks `~((1UL << __fls(mask)) -
1)` and `~0UL` written as their u64 values. -/
def qfq_deactivate_class (q : QfqSched) (cid : Nat) : QfqSched :=
  let cl := q.classes cid
  let grpIdx := cl.grp
  let q1 := setClass q cid { cl with F := cl.S }
  let q2 := qfq_slot_remove q1 grpIdx cid
  let grp := q2.groups grpIdx
  let q3 :=
    if grp.full_slots = 0 then
      let qa := clearBitmapBit q2 IR grp.index
      let qb := clearBitmapBit qa EB grp.index
      let qc := clearBitmapBit qb IB grp.index
      let qd :=
        if (qc.bitmaps ER).testBit grp.index ∧
            bdiff (qc.bitmaps ER) (1 <<< grp.index - 1) = 0 then
          let mask0 := qc.bitmaps ER &&& (1 <<< grp.index - 1)
          let mask := if mask0 ≠ 0 then U64 - 2 ^ fls0 mask0 else U64 - 1
          let qm := qfq_move_groups qc mask EB ER
          qfq_move_groups qm mask IB IR
        else qc
      clearBitmapBit qd ER grp.index
    else if grp.slots grp.front = [] then
      let scanRes := qfq_slot_scan q2 grpIdx
      let qa := scanRes.1
      let cid2 := scanRes.2.getD 0
      let cl2 := qa.classes cid2
      let grp2 := qa.groups grpIdx
      let roundedS := qfq_round_down cl2.S grp2.slot_shift
      if grp2.S ≠ roundedS then
        let qb := clearBitmapBit qa ER grp2.index
        let qc := clearBitmapBit qb IR grp2.index
        let qd := clearBitmapBit qc EB grp2.index
        let qe := clearBitmapBit qd IB grp2.index
        let qf := setGroup qe grpIdx
          { grp2 with S := roundedS, F := (roundedS + (2 <<< grp2.slot_shift)) % U64 }
        let s := qfq_calc_state qf grpIdx
        setBitmapBit qf s ((qf.groups grpIdx).index)
      else qa
    else q2
  qfq_update_eligible q3 q3.V

/-! ## Dequeue (sch_qfq.c lines 893-1074) -/

/-- qfq_update_class(q, grp, cl, len) (sch_qfq.c line 893): updates the
class timestamps after a dequeue; returns true iff the group also needs
updating. -/
def qfq_update_class (q : QfqSched) (grpIdx cid len : Nat) : QfqSched × Bool :=
  let cl := q.classes cid
  let cl1 := { cl with S := cl.F }
  let q1 := setClass q cid cl1
  if len = 0 then (qfq_front_slot_remove q1 grpIdx, true)
  else if cl1.inv_w = ONE_FP + 1 then (qfq_front_slot_remove q1 grpIdx, true)
  else
    let cl2 := { cl1 with F := (cl1.S + len * cl1.inv_w) % U64 }
    let q2 := setClass q1 cid cl2
    let grp := q2.groups grpIdx
    let roundedS := qfq_round_down cl2.S grp.slot_shift
    if roundedS = grp.S then (q2, false)
    else
      let q3 := qfq_front_slot_remove q2 grpIdx
      (qfq_slot_insert q3 grpIdx cid roundedS, true)

/-- qfq_dequeue(sch) (sch_qfq.c line 979) with the wall clock reading
`now` passed as a parameter.  Returns the new state and the length of the
dequeued packet (`none` models returning a NULL skb; the `none` branches
for an empty front slot or an empty sub-queue correspond to states the C
code would treat as fatal/warned inconsistencies). -/
def qfq_dequeue (q0 : QfqSched) (now : Nat) : QfqSched × Option Nat :=
  let q := qfq_update_system_time q0 now
  if q.bitmaps ER = 0 then (q, none)
  else
    let grpIdx := ffs0 (q.bitmaps ER)
    let cid := (qfq_slot_head q grpIdx).getD 0
    match (q.classes cid).queue with
      | [] => (q, none)
      | len :: rest =>
        let next_len := rest.headD 0
        let cl_qlen := rest.length
        let q1 := setClass q cid { q.classes cid with queue := rest }
        let q2 := if cl_qlen = 0 then { q1 with sch_qlen := q1.sch_qlen - 1 } else q1
        let old_V := q2.V
        let q3 := { q2 with
          v_diff_sum := (q2.v_diff_sum + len * ONE_FP / max LINK_SPEED q2.wsum_active) % U64,
          t_diff_sum := (q2.t_diff_sum + len * NSEC_PER_SEC / (125000 * LINK_SPEED)) % U64 }
        let res := qfq_update_class q3 grpIdx cid next_len
        let q4 := res.1
        let q5 :=
          if res.2 then
            let old_F := (q4.groups grpIdx).F
            let clw := q4.classes cid
            let qa :=
              if clw.inv_w ≠ 0 ∧ cl_qlen = 0 then
                { q4 with wsum_active := sub32 q4.wsum_active (ONE_FP / clw.inv_w) }
              else q4
            let scanRes := qfq_slot_scan qa grpIdx
            let qb := scanRes.1
            match scanRes.2 with
            | none =>
              let qc := clearBitmapBit qb ER ((qb.groups grpIdx).index)
              qfq_unblock_groups qc ((qc.groups grpIdx).index) old_F
            | some cid2 =>
              let cl2 := qb.classes cid2
              let grp2 := qb.groups grpIdx
              let roundedS := qfq_round_down cl2.S grp2.slot_shift
              if grp2.S = roundedS then qb
              else
                let qc := setGroup qb grpIdx
                  { grp2 with S := roundedS, F := (roundedS + (2 <<< grp2.slot_shift)) % U64 }
                let qd := clearBitmapBit qc ER ((qc.groups grpIdx).index)
                let s := qfq_calc_state qd grpIdx
                let qe := setBitmapBit qd s ((qd.groups grpIdx).index)
                qfq_unblock_groups qe ((qe.groups grpIdx).index) old_F
          else
            let clw := q4.classes cid
            if clw.inv_w ≠ 0 ∧ cl_qlen = 0 then
              { q4 with wsum_active := sub32 q4.wsum_active (ONE_FP / clw.inv_w) }
            else q4
        (qfq_update_eligible q5 old_V, some len)

/-! ## Control plane (sch_qfq.c lines 305-449) -/

/-- Addition of a signed C int delta to a u32 counter (`w += delta_w`),
wrapping modulo 2^32. -/
def addU32Int (a : Nat) (d : Int) : Nat := ((Int.ofNat a + d).emod (Int.ofNat U32)).toNat

/-- qfq_update_class_params(q, cl, lmax, inv_w, delta_w)
(sch_qfq.c line 305). -/
def qfq_update_class_params (q : QfqSched) (cid : Nat) (lmax inv_w : Nat)
    (delta_w : Int) : QfqSched :=
  let cl := q.classes cid
  let i := qfq_calc_index inv_w lmax
  let q1 := setClass q cid { cl with lmax := lmax, inv_w := inv_w, grp := i }
  { q1 with wsum := addU32Int q1.wsum delta_w }

/-- qfq_change_class (sch_qfq.c line 320).  `clOpt` is the class resolved
from the request handle (`*arg`), `newCid` the id used when creating a
new class, `weightOpt`/`lmaxOpt` the optional TCA_QFQ_WEIGHT/TCA_QFQ_LMAX
attributes, and `hasRate`/`estErr` model the external TCA_RATE estimator
call and its failure.  Returns the C result code paired with the
resulting scheduler state. -/
def qfq_change_class (q : QfqSched) (clOpt : Option Nat) (newCid : Nat)
    (weightOpt lmaxOpt : Option Nat) (hasRate estErr : Bool) : Int × QfqSched :=
  let wBad : Bool := match weightOpt with
    | some w => decide (w > 2 ^ QFQ_MAX_WSHIFT)
    | none => false
  if wBad then (-22, q)
  else
    let weight := weightOpt.getD 1
    let inv_w := if weight ≠ 0 then ONE_FP / weight else ONE_FP + 1
    let weight2 := ONE_FP / inv_w
    let delta_w : Int := Int.ofNat weight2 -
      (match clOpt with
       | some cid => Int.ofNat (ONE_FP / (q.classes cid).inv_w)
       | none => 0)
    if addU32Int q.wsum delta_w > QFQ_MAX_WSUM then (-22, q)
    else
      let lBad : Bool := match lmaxOpt with
        | some l => decide (l = 0 ∨ l > 2 ^ QFQ_MTU_SHIFT)
        | none => false
      if lBad then (-22, q)
      else
        let lmax := lmaxOpt.getD (2 ^ QFQ_MTU_SHIFT)
        match clOpt with
        | some cid =>
          if hasRate ∧ estErr then (-12, q)
          else if lmax = (q.classes cid).lmax ∧ inv_w = (q.classes cid).inv_w then (0, q)
          else
            let cl := q.classes cid
            let i := qfq_calc_index inv_w lmax
            let deact := i ≠ cl.grp ∧ cl.queue ≠ [] ∧ cl.inv_w ≠ ONE_FP + 1
            let q1 :=
              if deact then qfq_deactivate_class (setClass q cid { cl with F := cl.S }) cid
              else q
            let needReact := (deact ∧ inv_w ≠ ONE_FP + 1) ∨
              (cl.inv_w = ONE_FP + 1 ∧ inv_w ≠ ONE_FP + 1)
            let q2 := qfq_update_class_params q1 cid lmax inv_w delta_w
            let q3 :=
              if (q2.classes cid).queue ≠ [] then
                { q2 with wsum_active := addU32Int q2.wsum_active delta_w }
              else q2
            let q4 :=
              if needReact then qfq_activate_class q3 cid ((q3.classes cid).queue.headD 0)
              else q3
            (0, q4)
        | none =>
          let q1 := setClass q newCid
            { S := 0, F := 0, inv_w := 0, lmax := 0, grp := 0, queue := [] }
          let q2 := qfq_update_class_params q1 newCid lmax inv_w delta_w
          (0, { q2 with classIds := newCid :: q2.classIds })

/-! ## Drop (sch_qfq.c line 1344) -/

/-- The class ids reachable from the group slot rings, in the iteration
order of qfq_drop: group index major, physical slot index, list order. -/
def qfq_slot_class_ids (q : QfqSched) : List Nat :=
  ((List.range (QFQ_MAX_INDEX + 1)).map fun i =>
    ((List.range QFQ_MAX_SLOTS).map fun j => (q.groups i).slots j).flatten).flatten

/-- qfq_drop(sch) (sch_qfq.c line 1344): walk all slots, drop one packet
from the first class whose sub-queue is non-empty (the leaf pfifo drop
removes the tail packet and returns its length), decrement the qdisc
length, and deactivate the class if its sub-queue drained.  Packet
lengths are taken nonzero, matching real skbs, so the first class with a
non-empty sub-queue is the one the C loop commits to. -/
def qfq_drop (q : QfqSched) : QfqSched × Nat :=
  match (qfq_slot_class_ids q).find? (fun cid => !(q.classes cid).queue.isEmpty) with
  | none => (q, 0)
  | some cid =>
    let cl := q.classes cid
    let len := cl.queue.getLast?.getD 0
    let q1 := setClass q cid { cl with queue := cl.queue.dropLast }
    let q2 := { q1 with sch_qlen := q1.sch_qlen - 1 }
    let q3 := if (q2.classes cid).queue = [] then qfq_deactivate_class q2 cid else q2
    (q3, len)

/-! ## Spinner activation drain (sch_qfq.c line 1410) -/

/-- One work entry processed by qfq_spinner_activate_classes: activate the
class, add its weight to `wsum_active` and count it in `sch->q.qlen`. -/
def qfq_activate_one (q : QfqSched) (e : Nat × Nat) : QfqSched :=
  let q1 := qfq_activate_class q e.1 e.2
  { q1 with wsum_active := (q1.wsum_active + ONE_FP / (q1.classes e.1).inv_w) % U32,
            sch_qlen := q1.sch_qlen + 1 }

/-- qfq_spinner_activate_classes(sch) with the pending work entries
(class id, packet length) passed as a list and the wall clock as `now`. -/
def qfq_spinner_activate_classes (q : QfqSched) (now : Nat)
    (events : List (Nat × Nat)) : QfqSched :=
  if events = [] then q
  else (qfq_update_system_time q now).V |> fun _ =>
    events.foldl qfq_activate_one (qfq_update_system_time q now)

/-! ## Initial state (sch_qfq.c line 1531) -/

/-- The group array set up by qfq_init_qdisc:
`slot_shift = QFQ_MTU_SHIFT + FRAC_BITS - (QFQ_MAX_INDEX - i)`. -/
def qfq_init_group (i : Nat) : QfqGroup :=
  { S := 0, F := 0,
    slot_shift := QFQ_MTU_SHIFT + FRAC_BITS - (QFQ_MAX_INDEX - i),
    index := i, front := 0, full_slots := 0, slots := fun _ => [] }

/-- The scheduler state after qfq_init_qdisc. -/
def qfq_init_sched : QfqSched :=
  { V := 0, wsum := 0, wsum_active := 0,
    bitmaps := fun _ => 0,
    groups := fun i => qfq_init_group i,
    classes := fun _ => default,
    classIds := [],
    v_last_updated := 0, v_diff_sum := 0, t_diff_sum := 0, sch_qlen := 0 }

/-- The sum the spec equates with `wsum_active`: `ONE_FP / inv_w` over
registered classes with a non-empty sub-queue and non-sentinel weight. -/
def qfq_active_wsum (q : QfqSched) : Nat :=
  (q.classIds.map fun cid =>
    let cl := q.classes cid
    if cl.queue ≠ [] ∧ cl.inv_w ≠ ONE_FP + 1 then ONE_FP / cl.inv_w else 0).sum

/-! ## Spec-side predicates and invariants -/

/-- The slot number qfq_slot_insert computes before clamping:
`(roundedS - grp->S) >> grp->slot_shift` in u64 arithmetic. -/
def qfq_slot_nr (q : QfqSched) (grpIdx roundedS : Nat) : Nat :=
  sub64 roundedS (q.groups grpIdx).S >>> (q.groups grpIdx).slot_shift

/-- ErLeastFrom q k j: `j` is the lowest index >= k whose bit is set in
the ER bitmap (the group `ffs` finds in `mask_from(bitmaps[ER], k)`). -/
def ErLeastFrom (q : QfqSched) (k j : Nat) : Prop :=
  k ≤ j ∧ (q.bitmaps ER).testBit j = true ∧
    ∀ j2, j2 < j → k ≤ j2 → (q.bitmaps ER).testBit j2 = false

instance (q : QfqSched) (k j : Nat) : Decidable (ErLeastFrom q k j) := by
  unfold ErLeastFrom; infer_instance

/-- Number of the four state bitmaps in which bit `j` is set. -/
def stateCount (q : QfqSched) (j : Nat) : Nat :=
  (if (q.bitmaps ER).testBit j then 1 else 0) +
  (if (q.bitmaps IR).testBit j then 1 else 0) +
  (if (q.bitmaps EB).testBit j then 1 else 0) +
  (if (q.bitmaps IB).testBit j then 1 else 0)

/-- The claimed bitmap invariant: the four state bitmaps are pairwise
disjoint (no bit position of the 64-bit words is set in two of them), and
a group has a non-empty slot ring iff its bit is set in exactly one of
the four bitmaps. -/
def QfqBitmapInv (q : QfqSched) : Prop :=
  (∀ j, j < 64 → stateCount q j ≤ 1) ∧
  (∀ i, i < QFQ_MAX_INDEX + 1 → ((q.groups i).full_slots ≠ 0 ↔ stateCount q i = 1))

instance (q : QfqSched) : Decidable (QfqBitmapInv q) := by
  unfold QfqBitmapInv; infer_instance

/-- Structural well-formedness established by qfq_init_qdisc: group `i`
stores index `i`. -/
def GroupsWF (q : QfqSched) : Prop :=
  ∀ i, i < QFQ_MAX_INDEX + 1 → (q.groups i).index = i

instance (q : QfqSched) : Decidable (GroupsWF q) := by
  unfold GroupsWF; infer_instance

/-- The state bitmaps only carry bits of real group indices (0..19). -/
def BitmapsBounded (q : QfqSched) : Prop :=
  ∀ s, s < 4 → q.bitmaps s < 2 ^ (QFQ_MAX_INDEX + 1)

instance (q : QfqSched) : Decidable (BitmapsBounded q) := by
  unfold BitmapsBounded; infer_instance

/-- Equality of all scheduler fields except the state bitmaps. -/
def EqExceptBitmaps (q r : QfqSched) : Prop :=
  r.V = q.V ∧ r.wsum = q.wsum ∧ r.wsum_active = q.wsum_active ∧
  r.groups = q.groups ∧ r.classes = q.classes ∧ r.classIds = q.classIds ∧
  r.v_last_updated = q.v_last_updated ∧ r.v_diff_sum = q.v_diff_sum ∧
  r.t_diff_sum = q.t_diff_sum ∧ r.sch_qlen = q.sch_qlen

/-! ## Decompositions of the large operations, used by the preservation
proofs.  Each is definitionally equal to the corresponding piece of the
operation above. -/

/-- The scheduler state reached by qfq_deactivate_class just after
`qfq_slot_remove` (timestamps written, class unlinked from its slot). -/
def qfq_deact_q2 (q : QfqSched) (cid : Nat) : QfqSched :=
  qfq_slot_remove (setClass q cid { q.classes cid with F := (q.classes cid).S })
    (q.classes cid).grp cid

/-- The `full_slots == 0` branch of qfq_deactivate_class. -/
def qfq_deactA (q2 : QfqSched) (gi : Nat) : QfqSched :=
  let grp := q2.groups gi
  let qa := clearBitmapBit q2 IR grp.index
  let qb := clearBitmapBit qa EB grp.index
  let qc := clearBitmapBit qb IB grp.index
  let qd :=
    if (qc.bitmaps ER).testBit grp.index ∧
        bdiff (qc.bitmaps ER) (1 <<< grp.index - 1) = 0 then
      let mask0 := qc.bitmaps ER &&& (1 <<< grp.index - 1)
      let mask := if mask0 ≠ 0 then U64 - 2 ^ fls0 mask0 else U64 - 1
      let qm := qfq_move_groups qc mask EB ER
      qfq_move_groups qm mask IB IR
    else qc
  clearBitmapBit qd ER grp.index

/-- The `front slot emptied` branch of qfq_deactivate_class. -/
def qfq_deactB (q2 : QfqSched) (gi : Nat) : QfqSched :=
  let scanRes := qfq_slot_scan q2 gi
  let qa := scanRes.1
  let cid2 := scanRes.2.getD 0
  let cl2 := qa.classes cid2
  let grp2 := qa.groups gi
  let roundedS := qfq_round_down cl2.S grp2.slot_shift
  if grp2.S ≠ roundedS then
    let qb := clearBitmapBit qa ER grp2.index
    let qc := clearBitmapBit qb IR grp2.index
    let qd := clearBitmapBit qc EB grp2.index
    let qe := clearBitmapBit qd IB grp2.index
    let qf := setGroup qe gi
      { grp2 with S := roundedS, F := (roundedS + (2 <<< grp2.slot_shift)) % U64 }
    let s := qfq_calc_state qf gi
    setBitmapBit qf s ((qf.groups gi).index)
  else qa

/-- The state qfq_deactivate_class passes to its final
qfq_update_eligible. -/
def qfq_deact_q3 (q : QfqSched) (cid : Nat) : QfqSched :=
  let q2 := qfq_deact_q2 q cid
  let grp := q2.groups (q.classes cid).grp
  if grp.full_slots = 0 then qfq_deactA q2 (q.classes cid).grp
  else if grp.slots grp.front = [] then qfq_deactB q2 (q.classes cid).grp
  else q2

/-- The tail of the dequeue group update: slot scan, group re-filing and
cross-tier unblock (the `if (!cl) ... else if (grp->S != roundedS)` block
of sch_qfq.c lines 1030-1060). -/
def qfq_deq_tail (qa : QfqSched) (gi old_F : Nat) : QfqSched :=
  let scanRes := qfq_slot_scan qa gi
  let qb := scanRes.1
  match scanRes.2 with
  | none =>
    let qc := clearBitmapBit qb ER ((qb.groups gi).index)
    qfq_unblock_groups qc ((qc.groups gi).index) old_F
  | some cid2 =>
    let cl2 := qb.classes cid2
    let grp2 := qb.groups gi
    let roundedS := qfq_round_down cl2.S grp2.slot_shift
    if grp2.S = roundedS then qb
    else
      let qc := setGroup qb gi
        { grp2 with S := roundedS, F := (roundedS + (2 <<< grp2.slot_shift)) % U64 }
      let qd := clearBitmapBit qc ER ((qc.groups gi).index)
      let s := qfq_calc_state qd gi
      let qe := setBitmapBit qd s ((qd.groups gi).index)
      qfq_unblock_groups qe ((qe.groups gi).index) old_F

/-- The class/accounting updates of qfq_dequeue up to and including
qfq_update_class. -/
def qfq_deq_q4pair (q : QfqSched) (gi cid len : Nat) (rest : List Nat) :
    QfqSched × Bool :=
  let next_len := rest.headD 0
  let cl_qlen := rest.length
  let q1 := setClass q cid { q.classes cid with queue := rest }
  let q2 := if cl_qlen = 0 then { q1 with sch_qlen := q1.sch_qlen - 1 } else q1
  let q3 := { q2 with
    v_diff_sum := (q2.v_diff_sum + len * ONE_FP / max LINK_SPEED q2.wsum_active) % U64,
    t_diff_sum := (q2.t_diff_sum + len * NSEC_PER_SEC / (125000 * LINK_SPEED)) % U64 }
  qfq_update_class q3 gi cid next_len

/-- The state qfq_dequeue passes to its final qfq_update_eligible. -/
def qfq_deq_q5 (q : QfqSched) (gi cid len : Nat) (rest : List Nat) : QfqSched :=
  let cl_qlen := rest.length
  let res := qfq_deq_q4pair q gi cid len rest
  let q4 := res.1
  if res.2 then
    let old_F := (q4.groups gi).F
    let clw := q4.classes cid
    let qa :=
      if clw.inv_w ≠ 0 ∧ cl_qlen = 0 then
        { q4 with wsum_active := sub32 q4.wsum_active (ONE_FP / clw.inv_w) }
      else q4
    qfq_deq_tail qa gi old_F
  else
    let clw := q4.classes cid
    if clw.inv_w ≠ 0 ∧ cl_qlen = 0 then
      { q4 with wsum_active := sub32 q4.wsum_active (ONE_FP / clw.inv_w) }
    else q4

/-- qfq_dequeue re-expressed through the decomposition pieces. -/
def qfq_deq_res (q0 : QfqSched) (now : Nat) : QfqSched × Option Nat :=
  let q := qfq_update_system_time q0 now
  if q.bitmaps ER = 0 then (q, none)
  else
    let gi := ffs0 (q.bitmaps ER)
    let cid := (qfq_slot_head q gi).getD 0
    match (q.classes cid).queue with
    | [] => (q, none)
    | len :: rest =>
      let q1 := setClass q cid { q.classes cid with queue := rest }
      let q2 := if rest.length = 0 then { q1 with sch_qlen := q1.sch_qlen - 1 }
        else q1
      (qfq_update_eligible (qfq_deq_q5 q gi cid len rest) q2.V, some len)

/-- The accept path of qfq_change_class (everything after the three
validation checks), factored out. -/
def qfq_change_tail (q : QfqSched) (clOpt : Option Nat) (newCid : Nat)
    (inv_w : Nat) (delta_w : Int) (lmax : Nat) (hasRate estErr : Bool) :
    Int × QfqSched :=
  match clOpt with
  | some cid =>
    if hasRate ∧ estErr then (-12, q)
    else if lmax = (q.classes cid).lmax ∧ inv_w = (q.classes cid).inv_w then (0, q)
    else
      let cl := q.classes cid
      let i := qfq_calc_index inv_w lmax
      let deact := i ≠ cl.grp ∧ cl.queue ≠ [] ∧ cl.inv_w ≠ ONE_FP + 1
      let q1 :=
        if deact then qfq_deactivate_class (setClass q cid { cl with F := cl.S }) cid
        else q
      let needReact := (deact ∧ inv_w ≠ ONE_FP + 1) ∨
        (cl.inv_w = ONE_FP + 1 ∧ inv_w ≠ ONE_FP + 1)
      let q2 := qfq_update_class_params q1 cid lmax inv_w delta_w
      let q3 :=
        if (q2.classes cid).queue ≠ [] then
          { q2 with wsum_active := addU32Int q2.wsum_active delta_w }
        else q2
      let q4 :=
        if needReact then qfq_activate_class q3 cid ((q3.classes cid).queue.headD 0)
        else q3
      (0, q4)
  | none =>
    let q1 := setClass q newCid
      { S := 0, F := 0, inv_w := 0, lmax := 0, grp := 0, queue := [] }
    let q2 := qfq_update_class_params q1 newCid lmax inv_w delta_w
    (0, { q2 with classIds := newCid :: q2.classIds })

/-- qfq_change_class with the accept path folded into qfq_change_tail. -/
def qfq_change_class_alt (q : QfqSched) (clOpt : Option Nat) (newCid : Nat)
    (weightOpt lmaxOpt : Option Nat) (hasRate estErr : Bool) : Int × QfqSched :=
  let wBad : Bool := match weightOpt with
    | some w => decide (w > 2 ^ QFQ_MAX_WSHIFT)
    | none => false
  if wBad then (-22, q)
  else
    let weight := weightOpt.getD 1
    let inv_w := if weight ≠ 0 then ONE_FP / weight else ONE_FP + 1
    let weight2 := ONE_FP / inv_w
    let delta_w : Int := Int.ofNat weight2 -
      (match clOpt with
       | some cid => Int.ofNat (ONE_FP / (q.classes cid).inv_w)
       | none => 0)
    if addU32Int q.wsum delta_w > QFQ_MAX_WSUM then (-22, q)
    else
      let lBad : Bool := match lmaxOpt with
        | some l => decide (l = 0 ∨ l > 2 ^ QFQ_MTU_SHIFT)
        | none => false
      if lBad then (-22, q)
      else
        qfq_change_tail q clOpt newCid inv_w delta_w
          (lmaxOpt.getD (2 ^ QFQ_MTU_SHIFT)) hasRate estErr

/-! ## Concrete states used by counterexamples and witnesses -/

/-- A scheduler state satisfying the bitmap invariant in which group 0 is
in ER with a stale start timestamp `2^40` ahead of V: activating class 2
(whose computed start lands below the group start) takes the rotate path
and files the still-ER group under IR as well. -/
def sigmaAct : QfqSched :=
  { qfq_init_sched with
    bitmaps := fun b => if b = ER then 1 else 0,
    groups := fun i =>
      if i = 0 then
        { qfq_init_group 0 with
          S := 2 ^ 40, F := 2 ^ 25, full_slots := 1,
          slots := fun j => if j = 0 then [1] else [] }
      else qfq_init_group i,
    classes := fun c =>
      if c = 1 then
        { S := 2 ^ 40, F := 2 ^ 40, inv_w := 2 ^ 30, lmax := 2048, grp := 0, queue := [100] }
      else if c = 2 then
        { S := 0, F := 2 ^ 30, inv_w := 2 ^ 30, lmax := 2048, grp := 0, queue := [100] }
      else default,
    classIds := [1, 2] }

/-- A scheduler state where groups 0 and 1 are both in ER, group 0 having
the later finish time: qfq_calc_state inspects the mask of ER bits at
positions >= the group index, which here finds group 0 itself first. -/
def sigmaCalc : QfqSched :=
  { qfq_init_sched with
    bitmaps := fun b => if b = ER then 3 else 0,
    groups := fun i =>
      if i = 0 then { qfq_init_group 0 with S := 0, F := 10, full_slots := 1 }
      else if i = 1 then { qfq_init_group 1 with S := 0, F := 5, full_slots := 1 }
      else qfq_init_group i }

/-- A scheduler state where group 1 is the only ER group (holding only
class 2) and group 0 sits in EB: deactivating class 2 empties group 1 and
removes the last ER group. -/
def sigmaDeact : QfqSched :=
  { qfq_init_sched with
    bitmaps := fun b => if b = ER then 2 else if b = EB then 1 else 0,
    groups := fun i =>
      if i = 0 then
        { qfq_init_group 0 with
          S := 0, F := 2 ^ 23, full_slots := 1,
          slots := fun j => if j = 0 then [3] else [] }
      else if i = 1 then
        { qfq_init_group 1 with
          S := 0, F := 2 ^ 24, full_slots := 1,
          slots := fun j => if j = 0 then [2] else [] }
      else qfq_init_group i,
    classes := fun c =>
      if c = 2 then { S := 0, F := 0, inv_w := 2 ^ 30, lmax := 2048, grp := 1, queue := [] }
      else if c = 3 then { S := 0, F := 0, inv_w := 2 ^ 30, lmax := 2048, grp := 0, queue := [100] }
      else default,
    classIds := [2, 3] }

/-- A scheduler state with one backlogged weight-1 class (id 1, group 19,
one 100-byte packet) and `wsum_active = 1` matching the active-weight sum. -/
def sigmaDrop : QfqSched :=
  { qfq_init_sched with
    wsum := 1, wsum_active := 1, sch_qlen := 1,
    bitmaps := fun b => if b = ER then 2 ^ 19 else 0,
    groups := fun i =>
      if i = 19 then
        { qfq_init_group 19 with
          S := 0, F := 2 ^ 42, full_slots := 1,
          slots := fun j => if j = 0 then [1] else [] }
      else qfq_init_group i,
    classes := fun c =>
      if c = 1 then { S := 0, F := 2 ^ 41, inv_w := 2 ^ 30, lmax := 2048, grp := 19, queue := [100] }
      else default,
    classIds := [1] }

/-! ### Lemmas about the bit primitives -/

theorem ffs0Go_testBit : ∀ k n, n ≠ 0 → n < 2 ^ k → n.testBit (ffs0Go k n) = true := by
  intro k
  induction k with
  | zero =>
    intro n h hb
    exact absurd (by omega) h
  | succ k ih =>
    intro n h hb
    by_cases h2 : n % 2 = 1
    · simp only [ffs0Go, if_pos h2]
      simpa [Nat.testBit_zero] using Nat.mod_two_eq_one_iff_testBit_zero.mp h2
    · have hne : n / 2 ≠ 0 := by omega
      have hlt : n / 2 < 2 ^ k := by
        have : (2 : Nat) ^ (k + 1) = 2 ^ k * 2 := by ring
        omega
      simp only [ffs0Go, if_neg h2]
      simpa [Nat.testBit_succ] using ih (n / 2) hne hlt

theorem ffs0Go_min : ∀ k n j, j < ffs0Go k n → n.testBit j = false := by
  intro k
  induction k with
  | zero =>
    intro n j h
    simp [ffs0Go] at h
  | succ k ih =>
    intro n j h
    by_cases h2 : n % 2 = 1
    · simp [ffs0Go, h2] at h
    · simp only [ffs0Go, if_neg h2] at h
      match j with
      | 0 =>
        have : n % 2 = 0 := by omega
        simp [Nat.testBit_zero, Nat.mod_two_eq_zero_iff_testBit_zero.mp this]
      | j + 1 =>
        have := ih (n / 2) j (by omega)
        simpa [Nat.testBit_succ] using this

theorem ffs0_testBit {n : Nat} (h : n ≠ 0) (hb : n < U64) : n.testBit (ffs0 n) = true :=
  ffs0Go_testBit 64 n h hb

theorem ffs0_min {n j : Nat} (h : j < ffs0 n) : n.testBit j = false :=
  ffs0Go_min 64 n j h

theorem testBit_ge_of_lt_two_pow {w m j : Nat} (h : w < 2 ^ m) (hj : m ≤ j) :
    w.testBit j = false :=
  Nat.testBit_lt_two_pow (Nat.lt_of_lt_of_le h (Nat.pow_le_pow_right (by decide) hj))

/-- The lowest set bit of a nonzero word below `2^m` (m <= 64) lies below `m`. -/
theorem ffs0_lt_of_lt_two_pow {n m : Nat} (h : n ≠ 0) (hb : n < 2 ^ m)
    (hm : m ≤ 64) : ffs0 n < m := by
  by_contra hge
  push_neg at hge
  have hb64 : n < U64 := by
    have : (2 : Nat) ^ m ≤ 2 ^ 64 := Nat.pow_le_pow_right (by decide) hm
    unfold U64
    omega
  have hf : n.testBit (ffs0 n) = false := testBit_ge_of_lt_two_pow hb hge
  rw [ffs0_testBit h hb64] at hf
  exact Bool.noConfusion hf

theorem testBit_mask_from (b k j : Nat) :
    (mask_from b k).testBit j = (decide (k ≤ j) && b.testBit j) := by
  unfold mask_from
  rw [Nat.testBit_shiftLeft, Nat.testBit_shiftRight]
  by_cases h : k ≤ j
  · simp [h, Nat.add_sub_cancel' h]
  · simp [h]

theorem mask_from_eq_zero_iff (b k : Nat) :
    mask_from b k = 0 ↔ ∀ j, k ≤ j → b.testBit j = false := by
  constructor
  · intro h j hj
    have := congrArg (fun x => x.testBit j) h
    simp only [testBit_mask_from, Nat.zero_testBit] at this
    simpa [hj] using this
  · intro h
    apply Nat.eq_of_testBit_eq
    intro j
    simp only [testBit_mask_from, Nat.zero_testBit]
    by_cases hj : k ≤ j
    · simp [hj, h j hj]
    · simp [hj]

theorem mask_from_le (b k : Nat) : mask_from b k ≤ b := by
  unfold mask_from
  rw [Nat.shiftRight_eq_div_pow, Nat.shiftLeft_eq]
  exact Nat.div_mul_le_self b (2 ^ k)

/-- For a nonzero mask over a u64 word, `ffs0 (mask_from b k)` is the
least index `>= k` where `b` has a set bit. -/
theorem ffs0_mask_from_spec {b k : Nat} (h : mask_from b k ≠ 0) (hb : b < U64) :
    k ≤ ffs0 (mask_from b k) ∧ b.testBit (ffs0 (mask_from b k)) = true ∧
      ∀ j, k ≤ j → j < ffs0 (mask_from b k) → b.testBit j = false := by
  have hmb : mask_from b k < U64 := Nat.lt_of_le_of_lt (mask_from_le b k) hb
  have hbit := ffs0_testBit h hmb
  rw [testBit_mask_from] at hbit
  have hk : k ≤ ffs0 (mask_from b k) := by
    by_contra hlt
    simp [hlt] at hbit
  refine ⟨hk, by simpa [hk] using hbit, ?_⟩
  intro j hj hjlt
  have := ffs0_min hjlt
  rw [testBit_mask_from] at this
  simpa [hj] using this

theorem testBit_set_bit (w i j : Nat) :
    (set_bit w i).testBit j = (w.testBit j || decide (i = j)) := by
  unfold set_bit
  rw [Nat.testBit_or, Nat.testBit_shiftLeft]
  by_cases h : i = j
  · subst h; simp
  · by_cases hle : i ≤ j
    · have : j - i ≠ 0 := by omega
      simp [hle, Nat.testBit_one_eq_true_iff_self_eq_zero, this, h]
    · simp [hle, h]

theorem testBit_clear_bit (w i j : Nat) :
    (clear_bit w i).testBit j = (w.testBit j && !decide (i = j)) := by
  unfold clear_bit
  rw [Nat.testBit_or]
  have hhi : (w >>> (i + 1) <<< (i + 1)).testBit j =
      (decide (i + 1 ≤ j) && w.testBit j) := testBit_mask_from w (i + 1) j
  rw [hhi, Nat.testBit_mod_two_pow]
  rcases Nat.lt_trichotomy j i with h | h | h
  · have h1 : ¬ i + 1 ≤ j := by omega
    have h2 : i ≠ j := by omega
    simp [h1, h, h2]
  · subst h
    simp
  · have h1 : i + 1 ≤ j := by omega
    have h2 : ¬ j < i := by omega
    have h3 : i ≠ j := by omega
    simp [h1, h2, h3]

theorem bdiffGo_testBit : ∀ k a m j, (bdiffGo k a m).testBit j =
    (decide (j < k) && a.testBit j && !m.testBit j) := by
  intro k
  induction k with
  | zero =>
    intro a m j
    simp [bdiffGo]
  | succ k ih =>
    intro a m j
    have hstep : bdiffGo (k + 1) a m =
        2 * bdiffGo k (a / 2) (m / 2) + (if a % 2 = 1 ∧ m % 2 = 0 then 1 else 0) := rfl
    match j with
    | 0 =>
      have hmod : (2 * bdiffGo k (a / 2) (m / 2) +
          (if a % 2 = 1 ∧ m % 2 = 0 then 1 else 0)) % 2 =
          (if a % 2 = 1 ∧ m % 2 = 0 then 1 else 0) := by
        split <;> omega
      rw [hstep]
      rw [Nat.testBit_zero, Nat.testBit_zero, Nat.testBit_zero, hmod]
      rcases Nat.mod_two_eq_zero_or_one a with h1 | h1 <;>
        rcases Nat.mod_two_eq_zero_or_one m with h2 | h2 <;>
          simp [h1, h2]
    | j + 1 =>
      have hdiv : (2 * bdiffGo k (a / 2) (m / 2) +
          (if a % 2 = 1 ∧ m % 2 = 0 then 1 else 0)) / 2 = bdiffGo k (a / 2) (m / 2) := by
        split <;> omega
      rw [hstep, Nat.testBit_add_one, hdiv, ih (a / 2) (m / 2) j,
        ← Nat.testBit_add_one, ← Nat.testBit_add_one]
      by_cases hj : j < k
      · simp [hj, Nat.succ_lt_succ hj]
      · have : ¬ j + 1 < k + 1 := by omega
        simp [hj, this]

theorem testBit_bdiff {a : Nat} (m j : Nat) (ha : a < U64) :
    (bdiff a m).testBit j = (a.testBit j && !m.testBit j) := by
  unfold bdiff
  rw [bdiffGo_testBit]
  by_cases hj : j < 64
  · simp [hj]
  · have hz : a.testBit j = false := by
      apply testBit_ge_of_lt_two_pow ha
      omega
    simp [hj, hz]

theorem lt_two_pow_of_testBit_false {w m : Nat}
    (h : ∀ j, m ≤ j → w.testBit j = false) : w < 2 ^ m := by
  exact Nat.lt_pow_two_of_testBit w fun i hi => h i hi

/-! ## Generic decidability helper -/

instance decidableExLtAnd (n : Nat) (P : Nat → Prop) [DecidablePred P] :
    Decidable (∃ j, j < n ∧ P j) :=
  decidable_of_iff (∃ j ∈ List.range n, P j) (by simp [List.mem_range])

/-! ## Arithmetic helpers -/

theorem sub64_eq_sub {a b : Nat} (ha : a < U64) (hb : b ≤ a) : sub64 a b = a - b := by
  unfold sub64 U64 at *
  rw [Nat.mod_eq_of_lt ha, Nat.mod_eq_of_lt (Nat.lt_of_le_of_lt hb ha)]
  omega

theorem sub64_self (a : Nat) : sub64 a a = 0 := by
  unfold sub64 U64
  omega

/-! ## Claim C6: qfq_calc_index functional behaviour -/

theorem qfq_calc_index_eq (inv_w maxlen : Nat) (hs : inv_w ≠ ONE_FP + 1)
    (hprod : maxlen * inv_w < U64)
    (hne : (maxlen * inv_w) >>> QFQ_MIN_SLOT_SHIFT ≠ 0) :
    qfq_calc_index inv_w maxlen =
      if maxlen * inv_w =
          2 ^ (fls0 ((maxlen * inv_w) >>> QFQ_MIN_SLOT_SHIFT) + 1 + QFQ_MIN_SLOT_SHIFT - 1)
      then fls0 ((maxlen * inv_w) >>> QFQ_MIN_SLOT_SHIFT) + 1 - 1
      else fls0 ((maxlen * inv_w) >>> QFQ_MIN_SLOT_SHIFT) + 1 := by
  simp only [qfq_calc_index, Nat.mod_eq_of_lt hprod]
  rw [if_neg hs, if_neg hne]

/-- C6.  qfq_calc_index(inv_w, lmax) returns 0 when `inv_w = ONE_FP + 1`
(weight-zero sentinel) or when `(lmax * inv_w) >> QFQ_MIN_SLOT_SHIFT = 0`;
otherwise, writing `size_map = slot_size >> QFQ_MIN_SLOT_SHIFT` and
`i0 = floor(log2 size_map)` (characterised by `2^i0 <= size_map <
2^(i0+1)`), it returns `i = i0 + 1` decremented by one exactly when
`slot_size = 2^(i + QFQ_MIN_SLOT_SHIFT - 1)`.  The final clamp to
non-negative values is vacuous since `i >= 1` there. -/
theorem qfq_C6_calc_index (inv_w maxlen : Nat) (h1 : inv_w < U32) (h2 : maxlen < U32) :
    (inv_w = ONE_FP + 1 → qfq_calc_index inv_w maxlen = 0) ∧
    ((maxlen * inv_w) >>> QFQ_MIN_SLOT_SHIFT = 0 → qfq_calc_index inv_w maxlen = 0) ∧
    (∀ i0 : Nat, inv_w ≠ ONE_FP + 1 →
      2 ^ i0 ≤ (maxlen * inv_w) >>> QFQ_MIN_SLOT_SHIFT →
      (maxlen * inv_w) >>> QFQ_MIN_SLOT_SHIFT < 2 ^ (i0 + 1) →
      qfq_calc_index inv_w maxlen =
        if maxlen * inv_w = 2 ^ (i0 + 1 + QFQ_MIN_SLOT_SHIFT - 1) then i0 + 1 - 1
        else i0 + 1) := by
  have hprod : maxlen * inv_w < U64 := by
    have hle : maxlen * inv_w ≤ (U32 - 1) * (U32 - 1) :=
      Nat.mul_le_mul (by omega) (by omega)
    have : (U32 - 1) * (U32 - 1) < U64 := by norm_num [U32, U64]
    omega
  have hmul : maxlen * inv_w % U64 = maxlen * inv_w := Nat.mod_eq_of_lt hprod
  refine ⟨?_, ?_, ?_⟩
  · intro h
    simp [qfq_calc_index, h]
  · intro h
    by_cases hs : inv_w = ONE_FP + 1
    · simp [qfq_calc_index, hs]
    · simp only [qfq_calc_index, hmul]
      rw [if_neg hs, if_pos h]
  · intro i0 hs hlo hhi
    have hne : (maxlen * inv_w) >>> QFQ_MIN_SLOT_SHIFT ≠ 0 := by
      have := Nat.two_pow_pos i0
      omega
    have hlog : fls0 ((maxlen * inv_w) >>> QFQ_MIN_SLOT_SHIFT) = i0 := by
      unfold fls0
      have hlow := (Nat.le_log2 hne).mpr hlo
      have hhigh := (Nat.log2_lt hne).mpr hhi
      omega
    rw [qfq_calc_index_eq inv_w maxlen hs hprod hne, hlog]

/-- Witness for C6 at weight 1, lmax 2048 (slot_size = 2^41, the exact
power-of-two boundary, giving index 19). -/
theorem qfq_C6_calc_index_witness :
    (ONE_FP / 1 < U32 ∧ 2048 < U32) ∧ qfq_calc_index (ONE_FP / 1) 2048 = 19 := by
  refine ⟨by decide, ?_⟩
  have h := (qfq_C6_calc_index (ONE_FP / 1) 2048 (by decide) (by decide)).2.2 19
    (by decide) (by decide) (by decide)
  simpa using h

/-! ## Claim C10: group index stays within the groups array -/

/-- C10.  For every weight in [1, 2^QFQ_MAX_WSHIFT] with
`inv_w = ONE_FP / weight` and every lmax in [1, 2^QFQ_MTU_SHIFT],
qfq_calc_index returns at most QFQ_MAX_INDEX = 19, so the group
back-reference installed by qfq_update_class_params always points inside
`q->groups`. -/
theorem qfq_C10_index_in_bounds (weight lmax : Nat) (hw1 : 1 ≤ weight)
    (hw2 : weight ≤ QFQ_MAX_WEIGHT) (hl1 : 1 ≤ lmax)
    (hl2 : lmax ≤ 2 ^ QFQ_MTU_SHIFT) :
    qfq_calc_index (ONE_FP / weight) lmax ≤ QFQ_MAX_INDEX ∧
    ∀ q cid dw,
      ((qfq_update_class_params q cid lmax (ONE_FP / weight) dw).classes cid).grp ≤
        QFQ_MAX_INDEX := by
  have hiw : ONE_FP / weight ≤ ONE_FP := Nat.div_le_self _ _
  have hne : ONE_FP / weight ≠ ONE_FP + 1 := by omega
  have hss : lmax * (ONE_FP / weight) ≤ 2 ^ 41 := by
    have h := Nat.mul_le_mul hl2 hiw
    have h2 : (2 : Nat) ^ QFQ_MTU_SHIFT * ONE_FP = 2 ^ 41 := by
      norm_num [QFQ_MTU_SHIFT, ONE_FP, FRAC_BITS]
    omega
  have hprod : lmax * (ONE_FP / weight) < U64 := by
    have : (2 : Nat) ^ 41 < U64 := by norm_num [U64]
    omega
  have hmain : qfq_calc_index (ONE_FP / weight) lmax ≤ QFQ_MAX_INDEX := by
    by_cases hz : (lmax * (ONE_FP / weight)) >>> QFQ_MIN_SLOT_SHIFT = 0
    · by_cases hs : (ONE_FP / weight) = ONE_FP + 1
      · simp [qfq_calc_index, hs, QFQ_MAX_INDEX]
      · have : qfq_calc_index (ONE_FP / weight) lmax = 0 := by
          simp only [qfq_calc_index, Nat.mod_eq_of_lt hprod]
          rw [if_neg hs, if_pos hz]
        simp [this, QFQ_MAX_INDEX]
    · have hsm : (lmax * (ONE_FP / weight)) >>> QFQ_MIN_SLOT_SHIFT ≤ 2 ^ 19 := by
        rw [Nat.shiftRight_eq_div_pow]
        have hd : lmax * (ONE_FP / weight) / 2 ^ QFQ_MIN_SLOT_SHIFT ≤
            2 ^ 41 / 2 ^ QFQ_MIN_SLOT_SHIFT := Nat.div_le_div_right hss
        have he : (2 : Nat) ^ 41 / 2 ^ QFQ_MIN_SLOT_SHIFT = 2 ^ 19 := by
          norm_num [QFQ_MIN_SLOT_SHIFT, QFQ_MAX_INDEX, QFQ_MTU_SHIFT, FRAC_BITS]
        omega
      have hlog_le : fls0 ((lmax * (ONE_FP / weight)) >>> QFQ_MIN_SLOT_SHIFT) ≤ 19 := by
        unfold fls0
        have hlt : (lmax * (ONE_FP / weight)) >>> QFQ_MIN_SLOT_SHIFT < 2 ^ 20 := by
          have : (2 : Nat) ^ 19 < 2 ^ 20 := by norm_num
          omega
        have := (Nat.log2_lt hz).mpr hlt
        omega
      rw [qfq_calc_index_eq (ONE_FP / weight) lmax hne hprod hz]
      by_cases h19 : fls0 ((lmax * (ONE_FP / weight)) >>> QFQ_MIN_SLOT_SHIFT) = 19
      · have h19b : 19 ≤ Nat.log2 ((lmax * (ONE_FP / weight)) >>> QFQ_MIN_SLOT_SHIFT) := by
          unfold fls0 at h19
          omega
        have hge : 2 ^ 19 ≤ (lmax * (ONE_FP / weight)) >>> QFQ_MIN_SLOT_SHIFT :=
          (Nat.le_log2 hz).mp h19b
        have hsm_eq : (lmax * (ONE_FP / weight)) >>> QFQ_MIN_SLOT_SHIFT = 2 ^ 19 := by omega
        have hss_ge : 2 ^ 41 ≤ lmax * (ONE_FP / weight) := by
          rw [Nat.shiftRight_eq_div_pow] at hsm_eq
          have h22 : 0 < 2 ^ QFQ_MIN_SLOT_SHIFT := Nat.two_pow_pos _
          have h3 : 2 ^ 19 ≤ lmax * (ONE_FP / weight) / 2 ^ QFQ_MIN_SLOT_SHIFT := hsm_eq.ge
          have h4 := (Nat.le_div_iff_mul_le h22).mp h3
          have h5 : (2 : Nat) ^ 19 * 2 ^ QFQ_MIN_SLOT_SHIFT = 2 ^ 41 := by
            norm_num [QFQ_MIN_SLOT_SHIFT, QFQ_MAX_INDEX, QFQ_MTU_SHIFT, FRAC_BITS]
          omega
        have hss_eq : lmax * (ONE_FP / weight) = 2 ^ 41 := by omega
        have hcond : lmax * (ONE_FP / weight) =
            2 ^ (fls0 ((lmax * (ONE_FP / weight)) >>> QFQ_MIN_SLOT_SHIFT) + 1 +
              QFQ_MIN_SLOT_SHIFT - 1) := by
          rw [h19, hss_eq]
          norm_num [QFQ_MIN_SLOT_SHIFT, QFQ_MAX_INDEX, QFQ_MTU_SHIFT, FRAC_BITS]
        rw [if_pos hcond, h19]
        decide
      · unfold QFQ_MAX_INDEX
        split
        · omega
        · omega
  refine ⟨hmain, ?_⟩
  intro q cid dw
  simpa [qfq_update_class_params, setClass] using hmain

/-- Witness for C10 at weight 1, lmax 2048. -/
theorem qfq_C10_index_in_bounds_witness :
    (1 ≤ 1 ∧ 1 ≤ QFQ_MAX_WEIGHT ∧ 1 ≤ 2048 ∧ 2048 ≤ 2 ^ QFQ_MTU_SHIFT) ∧
    qfq_calc_index (ONE_FP / 1) 2048 ≤ QFQ_MAX_INDEX := by
  exact ⟨by decide,
    (qfq_C10_index_in_bounds 1 2048 (by decide) (by decide) (by decide) (by decide)).1⟩

/-! ## Claim C8: qfq_slot_insert overflow clamping and frame -/

/-- C8.  qfq_slot_insert computes `slot = (roundedS - grp->S) >>
slot_shift`; when `slot >= QFQ_MAX_SLOTS` it clamps to QFQ_MAX_SLOTS - 1,
pushes the class at physical index `(front + QFQ_MAX_SLOTS - 1) %
QFQ_MAX_SLOTS` and sets bit QFQ_MAX_SLOTS - 1 in full_slots; otherwise it
pushes at `(front + slot) % QFQ_MAX_SLOTS` and sets bit `slot`.  No other
slot, group field, or scheduler field changes. -/
theorem qfq_C8_slot_insert (q : QfqSched) (grpIdx cid roundedS n slot i : Nat)
    (hn : n = qfq_slot_nr q grpIdx roundedS)
    (hslot : slot = if n ≥ QFQ_MAX_SLOTS then QFQ_MAX_SLOTS - 1 else n)
    (hi : i = ((q.groups grpIdx).front + slot) % QFQ_MAX_SLOTS) :
    (n ≥ QFQ_MAX_SLOTS → slot = QFQ_MAX_SLOTS - 1) ∧
    (n < QFQ_MAX_SLOTS → slot = n) ∧
    ((qfq_slot_insert q grpIdx cid roundedS).groups grpIdx).slots i =
      cid :: (q.groups grpIdx).slots i ∧
    ((qfq_slot_insert q grpIdx cid roundedS).groups grpIdx).full_slots =
      (q.groups grpIdx).full_slots ||| 2 ^ slot ∧
    (∀ j, j ≠ i → ((qfq_slot_insert q grpIdx cid roundedS).groups grpIdx).slots j =
      (q.groups grpIdx).slots j) ∧
    ((qfq_slot_insert q grpIdx cid roundedS).groups grpIdx).S = (q.groups grpIdx).S ∧
    ((qfq_slot_insert q grpIdx cid roundedS).groups grpIdx).F = (q.groups grpIdx).F ∧
    ((qfq_slot_insert q grpIdx cid roundedS).groups grpIdx).front =
      (q.groups grpIdx).front ∧
    ((qfq_slot_insert q grpIdx cid roundedS).groups grpIdx).slot_shift =
      (q.groups grpIdx).slot_shift ∧
    ((qfq_slot_insert q grpIdx cid roundedS).groups grpIdx).index =
      (q.groups grpIdx).index ∧
    (∀ j, j ≠ grpIdx → (qfq_slot_insert q grpIdx cid roundedS).groups j = q.groups j) ∧
    (qfq_slot_insert q grpIdx cid roundedS).V = q.V ∧
    (qfq_slot_insert q grpIdx cid roundedS).bitmaps = q.bitmaps ∧
    (qfq_slot_insert q grpIdx cid roundedS).classes = q.classes ∧
    (qfq_slot_insert q grpIdx cid roundedS).wsum = q.wsum ∧
    (qfq_slot_insert q grpIdx cid roundedS).wsum_active = q.wsum_active ∧
    (qfq_slot_insert q grpIdx cid roundedS).v_diff_sum = q.v_diff_sum ∧
    (qfq_slot_insert q grpIdx cid roundedS).t_diff_sum = q.t_diff_sum ∧
    (qfq_slot_insert q grpIdx cid roundedS).v_last_updated = q.v_last_updated ∧
    (qfq_slot_insert q grpIdx cid roundedS).sch_qlen = q.sch_qlen ∧
    (qfq_slot_insert q grpIdx cid roundedS).classIds = q.classIds := by
  subst hn hslot hi
  refine ⟨fun h => by rw [if_pos h], fun h => by rw [if_neg (by omega)], ?_⟩
  simp only [qfq_slot_insert, qfq_slot_nr, setGroup, set_bit, ge_iff_le]
  refine ⟨by simp, by simp [Nat.shiftLeft_eq], ?_, by simp, by simp, by simp, by simp,
    by simp, ?_, by simp, by simp, by simp, by simp, by simp, by simp, by simp, by simp,
    by simp, by simp⟩
  · intro j hj
    simp [hj]
  · intro j hj
    simp [hj]

/-- Witness for C8: inserting into an empty initial group with an
overflowing slot number lands in slot 31 of full_slots. -/
theorem qfq_C8_slot_insert_witness :
    qfq_slot_nr qfq_init_sched 0 (2 ^ 60) ≥ QFQ_MAX_SLOTS ∧
    ((qfq_slot_insert qfq_init_sched 0 7 (2 ^ 60)).groups 0).full_slots =
      (qfq_init_sched.groups 0).full_slots ||| 2 ^ 31 := by
  have h := qfq_C8_slot_insert qfq_init_sched 0 7 (2 ^ 60)
      (qfq_slot_nr qfq_init_sched 0 (2 ^ 60)) 31
      ((((qfq_init_sched : QfqSched).groups 0).front + 31) % QFQ_MAX_SLOTS)
      rfl (by decide) rfl
  exact ⟨by decide, h.2.2.2.1⟩

/-! ## Frame lemmas: bitmap moves leave the other fields alone -/

theorem eqeb_refl (q : QfqSched) : EqExceptBitmaps q q := by
  unfold EqExceptBitmaps
  exact ⟨rfl, rfl, rfl, rfl, rfl, rfl, rfl, rfl, rfl, rfl⟩

theorem eqeb_trans {a b c : QfqSched} (h1 : EqExceptBitmaps a b)
    (h2 : EqExceptBitmaps b c) : EqExceptBitmaps a c := by
  unfold EqExceptBitmaps at *
  obtain ⟨x1, x2, x3, x4, x5, x6, x7, x8, x9, x10⟩ := h1
  obtain ⟨y1, y2, y3, y4, y5, y6, y7, y8, y9, y10⟩ := h2
  exact ⟨y1.trans x1, y2.trans x2, y3.trans x3, y4.trans x4, y5.trans x5,
    y6.trans x6, y7.trans x7, y8.trans x8, y9.trans x9, y10.trans x10⟩

theorem eqeb_setBitmap (q : QfqSched) (s v : Nat) : EqExceptBitmaps q (setBitmap q s v) := by
  unfold EqExceptBitmaps setBitmap
  exact ⟨rfl, rfl, rfl, rfl, rfl, rfl, rfl, rfl, rfl, rfl⟩

theorem eqeb_move_groups (q : QfqSched) (mask src dst : Nat) :
    EqExceptBitmaps q (qfq_move_groups q mask src dst) := by
  unfold qfq_move_groups
  exact eqeb_trans (eqeb_setBitmap _ _ _) (eqeb_setBitmap _ _ _)

theorem eqeb_make_eligible (q : QfqSched) (v : Nat) :
    EqExceptBitmaps q (qfq_make_eligible q v) := by
  simp only [qfq_make_eligible]
  split
  · exact eqeb_trans (eqeb_move_groups _ _ _ _) (eqeb_move_groups _ _ _ _)
  · exact eqeb_refl q

theorem eqeb_update_eligible (q : QfqSched) (v : Nat) :
    EqExceptBitmaps q (qfq_update_eligible q v) := by
  simp only [qfq_update_eligible]
  split
  · exact eqeb_make_eligible q v
  · exact eqeb_refl q

theorem update_eligible_V (q : QfqSched) (v : Nat) :
    (qfq_update_eligible q v).V = q.V := (eqeb_update_eligible q v).1

theorem update_eligible_groups (q : QfqSched) (v : Nat) :
    (qfq_update_eligible q v).groups = q.groups := (eqeb_update_eligible q v).2.2.2.1

theorem update_eligible_classes (q : QfqSched) (v : Nat) :
    (qfq_update_eligible q v).classes = q.classes := (eqeb_update_eligible q v).2.2.2.2.1

theorem update_eligible_vlu (q : QfqSched) (v : Nat) :
    (qfq_update_eligible q v).v_last_updated = q.v_last_updated :=
  (eqeb_update_eligible q v).2.2.2.2.2.2.1

theorem update_eligible_vds (q : QfqSched) (v : Nat) :
    (qfq_update_eligible q v).v_diff_sum = q.v_diff_sum :=
  (eqeb_update_eligible q v).2.2.2.2.2.2.2.1

theorem update_eligible_tds (q : QfqSched) (v : Nat) :
    (qfq_update_eligible q v).t_diff_sum = q.t_diff_sum :=
  (eqeb_update_eligible q v).2.2.2.2.2.2.2.2.1

/-! ## Claim C2: the virtual-clock update -/

/-- C2.  Behaviour of qfq_update_system_time for an elapsed time
dt = now - v_last_updated > 0, by the three regimes of the pacing debt
accumulators (all arithmetic u64): debt retired in full (dt >=
t_diff_sum), debt paid proportionally (dt < t_diff_sum), and the no-debt
regime which advances V at the drain rate exactly when no group is in
ER; in every case v_last_updated becomes now. -/
theorem qfq_C2_update_system_time (q : QfqSched) (now dt : Nat)
    (h1 : q.v_last_updated < now) (h2 : now < U64)
    (hdt : dt = now - q.v_last_updated) :
    (qfq_update_system_time q now).v_last_updated = now ∧
    (q.t_diff_sum ≠ 0 → dt ≥ q.t_diff_sum →
      (qfq_update_system_time q now).V =
        (q.V + (if q.bitmaps ER = 0
          then (q.v_diff_sum +
            QFQ_DRAIN_RATE * (dt - q.t_diff_sum) % U64 / max LINK_SPEED q.wsum_active) % U64
          else q.v_diff_sum)) % U64 ∧
      (qfq_update_system_time q now).v_diff_sum = 0 ∧
      (qfq_update_system_time q now).t_diff_sum = 0) ∧
    (q.t_diff_sum ≠ 0 → dt < q.t_diff_sum →
      (qfq_update_system_time q now).V = (q.V + q.v_diff_sum * dt % U64 / q.t_diff_sum) % U64 ∧
      (qfq_update_system_time q now).v_diff_sum =
        sub64 q.v_diff_sum (q.v_diff_sum * dt % U64 / q.t_diff_sum) ∧
      (qfq_update_system_time q now).t_diff_sum = q.t_diff_sum - dt) ∧
    (q.t_diff_sum = 0 → q.bitmaps ER = 0 →
      (qfq_update_system_time q now).V =
        (q.V + QFQ_DRAIN_RATE * dt % U64 / max LINK_SPEED q.wsum_active) % U64 ∧
      (qfq_update_system_time q now).v_diff_sum = q.v_diff_sum ∧
      (qfq_update_system_time q now).t_diff_sum = q.t_diff_sum) ∧
    (q.t_diff_sum = 0 → q.bitmaps ER ≠ 0 →
      (qfq_update_system_time q now).V = q.V ∧
      (qfq_update_system_time q now).v_diff_sum = q.v_diff_sum ∧
      (qfq_update_system_time q now).t_diff_sum = q.t_diff_sum) := by
  have hne : q.v_last_updated ≠ now := by omega
  have hsub : sub64 now q.v_last_updated = dt := by
    rw [sub64_eq_sub h2 (Nat.le_of_lt h1)]
    omega
  simp only [qfq_update_system_time, if_neg hne, hsub, update_eligible_V,
    update_eligible_vlu, update_eligible_vds, update_eligible_tds]
  by_cases ht : q.t_diff_sum ≠ 0
  · rw [if_pos ht]
    by_cases hge : dt ≥ q.t_diff_sum
    · rw [if_pos hge]
      exact ⟨rfl, fun a b => ⟨rfl, rfl, rfl⟩, fun a b => absurd hge (by omega),
        fun a b => absurd a ht, fun a b => absurd a ht⟩
    · rw [if_neg hge]
      exact ⟨rfl, fun a b => absurd hge (by omega), fun a b => ⟨rfl, rfl, rfl⟩,
        fun a b => absurd a ht, fun a b => absurd a ht⟩
  · rw [if_neg ht]
    push_neg at ht
    by_cases her : q.bitmaps ER = 0
    · rw [if_pos her]
      exact ⟨rfl, fun a b => absurd ht a, fun a b => absurd ht a,
        fun a b => ⟨rfl, rfl, rfl⟩, fun a b => absurd her b⟩
    · rw [if_neg her]
      exact ⟨rfl, fun a b => absurd ht a, fun a b => absurd ht a,
        fun a b => absurd b her, fun a b => ⟨rfl, rfl, rfl⟩⟩

/-- Witness for C2: the idle initial scheduler advanced to time 1000ns. -/
theorem qfq_C2_update_system_time_witness :
    (qfq_init_sched.v_last_updated < 1000 ∧ (1000 : Nat) < U64) ∧
    (qfq_update_system_time qfq_init_sched 1000).v_last_updated = 1000 := by
  exact ⟨⟨by decide, by decide⟩,
    (qfq_C2_update_system_time qfq_init_sched 1000 1000 (by decide) (by decide)
      (by decide)).1⟩

/-! ## Bridge lemmas: ffs over mask_from as the least ER index -/

theorem erLeastFrom_ffs0 {q : QfqSched} {k : Nat}
    (h : mask_from (q.bitmaps ER) k ≠ 0) (hb : q.bitmaps ER < U64) :
    ErLeastFrom q k (ffs0 (mask_from (q.bitmaps ER) k)) := by
  obtain ⟨h1, h2, h3⟩ := ffs0_mask_from_spec h hb
  exact ⟨h1, h2, fun j2 hj2 hk => h3 j2 hk hj2⟩

theorem erLeastFrom_unique {q : QfqSched} {k j j2 : Nat}
    (ha : ErLeastFrom q k j) (hb : ErLeastFrom q k j2) : j = j2 := by
  obtain ⟨ha1, ha2, ha3⟩ := ha
  obtain ⟨hb1, hb2, hb3⟩ := hb
  rcases Nat.lt_trichotomy j j2 with h | h | h
  · have := hb3 j h ha1
    rw [ha2] at this
    exact absurd this (by simp)
  · exact h
  · have := ha3 j2 h hb1
    rw [hb2] at this
    exact absurd this (by simp)

theorem mask_from_ne_zero_of_erLeast {q : QfqSched} {k j : Nat}
    (h : ErLeastFrom q k j) : mask_from (q.bitmaps ER) k ≠ 0 := by
  intro h0
  have := (mask_from_eq_zero_iff _ _).mp h0 j h.1
  rw [h.2.1] at this
  exact absurd this (by simp)

/-! ## Claim C3: qfq_calc_state -/

/-- C3 (amended).  The low bit of qfq_calc_state(g) is 1 exactly when
qfq_gt(g.S, V); the blocked bit (value 2) is set exactly when some group
with index >= g.index (not strictly greater: mask_from keeps bit g.index)
is in ER and the lowest-index such group `next` satisfies
qfq_gt(g.F, next.F). -/
theorem qfq_C3_calc_state (q : QfqSched) (grpIdx : Nat) (hb : q.bitmaps ER < U64) :
    (qfq_calc_state q grpIdx).testBit 0 = qfq_gt (q.groups grpIdx).S q.V ∧
    ((qfq_calc_state q grpIdx).testBit 1 = true ↔
      ∃ j, j < 64 ∧ ErLeastFrom q ((q.groups grpIdx).index) j ∧
        qfq_gt (q.groups grpIdx).F (q.groups j).F = true) := by
  simp only [qfq_calc_state, qfq_ffs]
  by_cases hm : mask_from (q.bitmaps ER) ((q.groups grpIdx).index) = 0
  · rw [if_neg (by simpa using hm)]
    constructor
    · cases hsv : qfq_gt (q.groups grpIdx).S q.V <;> simp [hsv] <;> decide
    · constructor
      · intro h
        exact absurd h (by cases hsv : qfq_gt (q.groups grpIdx).S q.V <;> simp [hsv] <;> decide)
      · rintro ⟨j, _, hj, _⟩
        exact absurd hm (mask_from_ne_zero_of_erLeast hj)
  · rw [if_pos (by simpa using hm)]
    have hn := erLeastFrom_ffs0 hm hb
    have hn64 : ffs0 (mask_from (q.bitmaps ER) ((q.groups grpIdx).index)) < 64 :=
      ffs0_lt_of_lt_two_pow hm (Nat.lt_of_le_of_lt (mask_from_le _ _) hb) (Nat.le_refl 64)
    by_cases hgt : qfq_gt (q.groups grpIdx).F
        (q.groups (ffs0 (mask_from (q.bitmaps ER) ((q.groups grpIdx).index)))).F = true
    · rw [if_pos hgt]
      constructor
      · cases hsv : qfq_gt (q.groups grpIdx).S q.V <;> simp [hsv, EB] <;> decide
      · constructor
        · intro _
          exact ⟨_, hn64, hn, hgt⟩
        · intro _
          cases hsv : qfq_gt (q.groups grpIdx).S q.V <;> simp [hsv, EB] <;> decide
    · rw [if_neg hgt]
      constructor
      · cases hsv : qfq_gt (q.groups grpIdx).S q.V <;> simp [hsv] <;> decide
      · constructor
        · intro h
          exact absurd h (by cases hsv : qfq_gt (q.groups grpIdx).S q.V <;> simp [hsv] <;> decide)
        · rintro ⟨j, _, hj, hgtj⟩
          rw [erLeastFrom_unique hj hn] at hgtj
          exact absurd hgtj hgt

/-- Witness for C3 at a state with ER groups 0 and 1, evaluated for
group 1 (whose own bit is the lowest of the mask). -/
theorem qfq_C3_calc_state_witness :
    (sigmaCalc.bitmaps ER < U64) ∧ (qfq_calc_state sigmaCalc 1).testBit 0 = qfq_gt (sigmaCalc.groups 1).S sigmaCalc.V := by
  exact ⟨by decide, (qfq_C3_calc_state sigmaCalc 1 (by decide)).1⟩

/-- C3 counterexample: in `sigmaCalc`, group 0 and group 1 are both in
ER with `qfq_gt(g0.F, g1.F)`; the set of strictly higher-index ER groups
for group 0 is nonempty with lowest member 1, so the claim as written
predicts the blocked bit, but qfq_calc_state(0) = 0 (ER): the mask starts
at g.index, finds group 0 itself and compares `F` with itself. -/
theorem qfq_C3_counterexample :
    ¬ ((qfq_calc_state sigmaCalc 0).testBit 1 = true ↔
      ∃ j, j < 64 ∧ ErLeastFrom sigmaCalc ((sigmaCalc.groups 0).index + 1) j ∧
        qfq_gt (sigmaCalc.groups 0).F (sigmaCalc.groups j).F = true) := by
  intro h
  have hr : ∃ j, j < 64 ∧ ErLeastFrom sigmaCalc ((sigmaCalc.groups 0).index + 1) j ∧
      qfq_gt (sigmaCalc.groups 0).F (sigmaCalc.groups j).F = true :=
    ⟨1, by decide, ⟨by decide, by decide, fun j2 hj2 hk2 => absurd hj2 (by omega)⟩, by decide⟩
  exact absurd (h.mpr hr) (by decide)

/-! ## Claim C5: qfq_update_start -/

/-- C5.  qfq_update_start sets cl.S as follows, with `roundedF =
round_down(cl.F, slot_shift)` and `limit = round_down(V, slot_shift) +
2^slot_shift`: when the timestamp is fresh (`qfq_gt(cl.F, V)` and not
`qfq_gt(roundedF, limit)`), S becomes cl.F; when it is stale and the
lowest ER group `next` at index >= the class group index satisfies
`qfq_gt(roundedF, next.F)`, S becomes next.F if `qfq_gt(limit, next.F)`
and limit otherwise; in the remaining stale cases S becomes V. -/
theorem qfq_C5_update_start (q : QfqSched) (cid : Nat) (roundedF limit : Nat)
    (hb : q.bitmaps ER < U64)
    (hrF : roundedF = qfq_round_down (q.classes cid).F
      (q.groups (q.classes cid).grp).slot_shift)
    (hlim : limit = (qfq_round_down q.V (q.groups (q.classes cid).grp).slot_shift +
      1 <<< (q.groups (q.classes cid).grp).slot_shift) % U64) :
    (qfq_gt (q.classes cid).F q.V = true → qfq_gt roundedF limit = false →
      ((qfq_update_start q cid).classes cid).S = (q.classes cid).F) ∧
    ((qfq_gt (q.classes cid).F q.V = false ∨ qfq_gt roundedF limit = true) →
      ∀ j, ErLeastFrom q ((q.groups (q.classes cid).grp).index) j →
        qfq_gt roundedF (q.groups j).F = true →
        ((qfq_update_start q cid).classes cid).S =
          if qfq_gt limit (q.groups j).F then (q.groups j).F else limit) ∧
    ((qfq_gt (q.classes cid).F q.V = false ∨ qfq_gt roundedF limit = true) →
      (∀ j, ErLeastFrom q ((q.groups (q.classes cid).grp).index) j →
        qfq_gt roundedF (q.groups j).F = false) →
      ((qfq_update_start q cid).classes cid).S = q.V) := by
  have hproj : ((qfq_update_start q cid).classes cid).S =
      qfq_update_start_S q (q.classes cid) := by
    simp [qfq_update_start, setClass]
  rw [hproj]
  subst hrF hlim
  simp only [qfq_update_start_S]
  refine ⟨?_, ?_, ?_⟩
  · intro hF hRF
    rw [if_neg (by simp [hF, hRF])]
  · intro hst j hj hgt
    rw [if_pos (by rcases hst with h | h <;> simp [h])]
    have hm := mask_from_ne_zero_of_erLeast hj
    rw [if_pos (by simpa using hm)]
    have hn := erLeastFrom_ffs0 hm hb
    have hjn := erLeastFrom_unique hj hn
    simp only [qfq_ffs]
    rw [← hjn, if_pos hgt]
  · intro hst hall
    rw [if_pos (by rcases hst with h | h <;> simp [h])]
    by_cases hm : mask_from (q.bitmaps ER)
        ((q.groups (q.classes cid).grp).index) = 0
    · rw [if_neg (by simpa using hm)]
    · rw [if_pos (by simpa using hm)]
      have hn := erLeastFrom_ffs0 hm hb
      simp only [qfq_ffs]
      rw [if_neg (by rw [hall _ hn]; simp)]

/-- Witness for C5: in the empty initial scheduler a fresh class has a
stale zero timestamp and no ER group, so its start is set to V. -/
theorem qfq_C5_update_start_witness :
    (qfq_init_sched.bitmaps ER < U64) ∧
    ((qfq_update_start qfq_init_sched 5).classes 5).S = qfq_init_sched.V := by
  refine ⟨by decide, ?_⟩
  have h := (qfq_C5_update_start qfq_init_sched 5
      (qfq_round_down ((qfq_init_sched : QfqSched).classes 5).F
        ((qfq_init_sched : QfqSched).groups ((qfq_init_sched : QfqSched).classes 5).grp).slot_shift)
      ((qfq_round_down (qfq_init_sched : QfqSched).V
        ((qfq_init_sched : QfqSched).groups ((qfq_init_sched : QfqSched).classes 5).grp).slot_shift +
        1 <<< ((qfq_init_sched : QfqSched).groups ((qfq_init_sched : QfqSched).classes 5).grp).slot_shift) % U64)
      (by decide) rfl rfl).2.2
  exact h (Or.inl (by decide)) (fun j hj => absurd hj.2.1 (by simp [qfq_init_sched]))

set_option maxRecDepth 1000000

/-! ## Claim C4: the cross-tier unblock in qfq_deactivate_class is dead -/

/-- C4 (evaluation at the failing input).  In `sigmaDeact` — group 1 the
only ER group, group 0 waiting in EB — deactivating class 2 empties
group 1, so by the claim the EB group 0 should be promoted to ER (no
higher-index ER group survives; the lower-ER mask is empty, hence
all-ones).  The code instead leaves EB untouched and merely clears the
ER bit: its guard `test_bit(index, ER) && !(ER & ~((1 << index) - 1))`
can never hold, because the mask `~((1 << index) - 1)` contains bit
`index` itself. -/
theorem qfq_C4_deactivate_no_unblock :
    sigmaDeact.bitmaps ER = 2 ∧ sigmaDeact.bitmaps EB = 1 ∧
    QfqBitmapInv sigmaDeact ∧
    ((qfq_deactivate_class sigmaDeact 2).groups 1).full_slots = 0 ∧
    (qfq_deactivate_class sigmaDeact 2).bitmaps ER = 0 ∧
    (qfq_deactivate_class sigmaDeact 2).bitmaps EB = 1 ∧
    (qfq_deactivate_class sigmaDeact 2).bitmaps IR = 0 ∧
    (qfq_deactivate_class sigmaDeact 2).bitmaps IB = 0 := by
  decide

/-! ## Claim C7: qfq_drop leaves wsum_active stale -/

/-- C7 (evaluation at the failing input).  In `sigmaDrop` the single
backlogged weight-1 class makes `wsum_active = 1` equal to the
active-weight sum.  qfq_drop removes its only packet (100 bytes) and
deactivates the class, after which every sub-queue is empty, yet
`wsum_active` is still 1: qfq_drop never subtracts the weight of a class
it drains (qfq_dequeue does). -/
theorem qfq_C7_drop_wsum_active_stale :
    qfq_active_wsum sigmaDrop = sigmaDrop.wsum_active ∧
    QfqBitmapInv sigmaDrop ∧
    (qfq_drop sigmaDrop).2 = 100 ∧
    ((qfq_drop sigmaDrop).1.classes 1).queue = [] ∧
    ((qfq_drop sigmaDrop).1.groups 19).full_slots = 0 ∧
    (qfq_drop sigmaDrop).1.wsum_active = 1 ∧
    qfq_active_wsum (qfq_drop sigmaDrop).1 = 0 := by
  decide

/-! ## Claim C1: counterexample for unconditional preservation -/

/-- C1 counterexample.  `sigmaAct` satisfies the bitmap invariant (with
the structural side conditions), but activating class 2 breaks it:
group 0 sits in ER with a start far ahead of its class, the activation
takes the rotate path, clears only IR/IB, and then files the group under
IR while its ER bit is still set. -/
theorem qfq_C1_counterexample :
    QfqBitmapInv sigmaAct ∧ GroupsWF sigmaAct ∧ BitmapsBounded sigmaAct ∧
    (qfq_activate_class sigmaAct 2 100).bitmaps ER = 1 ∧
    (qfq_activate_class sigmaAct 2 100).bitmaps IR = 1 ∧
    stateCount (qfq_activate_class sigmaAct 2 100) 0 = 2 ∧
    ¬ QfqBitmapInv (qfq_activate_class sigmaAct 2 100) := by
  decide

/-! ## State-bit bookkeeping for the invariant proof -/

theorem stateBit_setBitmapBit (q : QfqSched) (s i t j : Nat) :
    ((setBitmapBit q s i).bitmaps t).testBit j =
      ((q.bitmaps t).testBit j || (decide (t = s) && decide (i = j))) := by
  unfold setBitmapBit setBitmap
  by_cases h : t = s
  · subst h
    simp [testBit_set_bit]
  · simp [h]

theorem stateBit_clearBitmapBit (q : QfqSched) (s i t j : Nat) :
    ((clearBitmapBit q s i).bitmaps t).testBit j =
      ((q.bitmaps t).testBit j && !(decide (t = s) && decide (i = j))) := by
  unfold clearBitmapBit setBitmap
  by_cases h : t = s
  · subst h
    simp [testBit_clear_bit]
  · simp [h]

theorem move_bitmaps (q : QfqSched) (mask src dst : Nat) (hsd : src ≠ dst) :
    (qfq_move_groups q mask src dst).bitmaps = fun t =>
      if t = src then bdiff (q.bitmaps src) mask
      else if t = dst then q.bitmaps dst ||| (q.bitmaps src &&& mask)
      else q.bitmaps t := by
  funext t
  unfold qfq_move_groups setBitmap
  by_cases h1 : t = src
  · subst h1
    simp [Ne.symm hsd, hsd]
  · by_cases h2 : t = dst
    · subst h2
      simp [h1]
    · simp [h1, h2]

theorem clear_bit_lt {w : Nat} {m : Nat} (i : Nat) (h : w < 2 ^ m) :
    clear_bit w i < 2 ^ m := by
  apply lt_two_pow_of_testBit_false
  intro j hj
  rw [testBit_clear_bit]
  rw [testBit_ge_of_lt_two_pow h hj]
  rfl

theorem bdiff_lt {a : Nat} {m : Nat} (mask : Nat) (ha64 : a < U64) (h : a < 2 ^ m) :
    bdiff a mask < 2 ^ m := by
  apply lt_two_pow_of_testBit_false
  intro j hj
  rw [testBit_bdiff mask j ha64]
  rw [testBit_ge_of_lt_two_pow h hj]
  rfl

theorem set_bit_lt {w i m : Nat} (hw : w < 2 ^ m) (hi : i < m) :
    set_bit w i < 2 ^ m := by
  unfold set_bit
  apply Nat.or_lt_two_pow hw
  rw [Nat.shiftLeft_eq, Nat.one_mul]
  exact Nat.pow_lt_pow_right (by decide) hi

theorem set_bit_ne_zero (w i : Nat) : set_bit w i ≠ 0 := by
  intro h
  have := congrArg (fun x => x.testBit i) h
  simp only [testBit_set_bit, Nat.zero_testBit] at this
  simp at this

theorem move_stateCount (q : QfqSched) (mask src dst : Nat) (hsd : src ≠ dst)
    (hsrc : src < 4) (hdst : dst < 4) (hb : q.bitmaps src < U64) (j : Nat)
    (hdisj : stateCount q j ≤ 1) :
    stateCount (qfq_move_groups q mask src dst) j = stateCount q j := by
  have hbm := move_bitmaps q mask src dst hsd
  unfold stateCount ER IR EB IB at *
  rw [hbm]
  interval_cases src <;> interval_cases dst <;>
    first
    | exact absurd rfl hsd
    | (cases h0 : (q.bitmaps 0).testBit j <;> cases h1 : (q.bitmaps 1).testBit j <;>
       cases h2 : (q.bitmaps 2).testBit j <;> cases h3 : (q.bitmaps 3).testBit j <;>
       cases hm : mask.testBit j <;>
       simp_all [Nat.testBit_or, Nat.testBit_and, testBit_bdiff])

theorem move_bounded (q : QfqSched) (mask src dst : Nat) (hsd : src ≠ dst)
    (hsrc : src < 4) (hdst : dst < 4) (m : Nat) (hm : m ≤ 64)
    (hall : ∀ t, t < 4 → q.bitmaps t < 2 ^ m) :
    ∀ t, t < 4 → (qfq_move_groups q mask src dst).bitmaps t < 2 ^ m := by
  have h64 : ∀ t2, t2 < 4 → q.bitmaps t2 < U64 := by
    intro t2 ht2
    have := hall t2 ht2
    have hle : (2 : Nat) ^ m ≤ 2 ^ 64 := Nat.pow_le_pow_right (by decide) hm
    unfold U64
    omega
  intro t ht
  simp only [move_bitmaps q mask src dst hsd]
  by_cases h1 : t = src
  · rw [if_pos h1]
    exact bdiff_lt mask (h64 src hsrc) (hall src hsrc)
  · rw [if_neg h1]
    by_cases h2 : t = dst
    · rw [if_pos h2]
      exact Nat.or_lt_two_pow (hall dst hdst)
        (Nat.lt_of_le_of_lt Nat.and_le_left (hall src hsrc))
    · rw [if_neg h2]
      exact hall t ht

theorem two_moves_stateCount (q : QfqSched) (M1 M2 s1 d1 s2 d2 : Nat)
    (h1 : s1 ≠ d1) (h2 : s2 ≠ d2) (hs1 : s1 < 4) (hd1 : d1 < 4)
    (hs2 : s2 < 4) (hd2 : d2 < 4)
    (hbb : ∀ t, t < 4 → q.bitmaps t < U64)
    (hdisj : ∀ j, j < 64 → stateCount q j ≤ 1) (j : Nat) (hj : j < 64) :
    stateCount (qfq_move_groups (qfq_move_groups q M1 s1 d1) M2 s2 d2) j =
      stateCount q j := by
  have hA := move_stateCount q M1 s1 d1 h1 hs1 hd1 (hbb s1 hs1) j (hdisj j hj)
  have hbb2 : ∀ t, t < 4 → (qfq_move_groups q M1 s1 d1).bitmaps t < U64 := by
    have := move_bounded q M1 s1 d1 h1 hs1 hd1 64 (Nat.le_refl 64)
      (fun t ht => by simpa [U64] using hbb t ht)
    intro t ht
    simpa [U64] using this t ht
  have hB := move_stateCount (qfq_move_groups q M1 s1 d1) M2 s2 d2 h2 hs2 hd2
    (hbb2 s2 hs2) j (by rw [hA]; exact hdisj j hj)
  rw [hB, hA]

theorem two_moves_bounded (q : QfqSched) (M1 M2 s1 d1 s2 d2 : Nat)
    (h1 : s1 ≠ d1) (h2 : s2 ≠ d2) (hs1 : s1 < 4) (hd1 : d1 < 4)
    (hs2 : s2 < 4) (hd2 : d2 < 4) (m : Nat) (hm : m ≤ 64)
    (hall : ∀ t, t < 4 → q.bitmaps t < 2 ^ m) :
    ∀ t, t < 4 → (qfq_move_groups (qfq_move_groups q M1 s1 d1) M2 s2 d2).bitmaps t < 2 ^ m := by
  have hA := move_bounded q M1 s1 d1 h1 hs1 hd1 m hm hall
  exact move_bounded _ M2 s2 d2 h2 hs2 hd2 m hm hA

theorem make_eligible_stateCount (q : QfqSched) (v : Nat)
    (hbb : ∀ t, t < 4 → q.bitmaps t < U64)
    (hdisj : ∀ j, j < 64 → stateCount q j ≤ 1) :
    ∀ j, j < 64 → stateCount (qfq_make_eligible q v) j = stateCount q j := by
  intro j hj
  simp only [qfq_make_eligible]
  split
  · exact two_moves_stateCount q _ _ IR ER IB EB (by decide) (by decide) (by decide)
      (by decide) (by decide) (by decide) hbb hdisj j hj
  · rfl

theorem update_eligible_stateCount (q : QfqSched) (v : Nat)
    (hbb : ∀ t, t < 4 → q.bitmaps t < U64)
    (hdisj : ∀ j, j < 64 → stateCount q j ≤ 1) :
    ∀ j, j < 64 → stateCount (qfq_update_eligible q v) j = stateCount q j := by
  intro j hj
  simp only [qfq_update_eligible]
  split
  · exact make_eligible_stateCount q v hbb hdisj j hj
  · rfl

/-! ## Frame lemmas for the slot-ring operations -/

theorem setGroup_bitmaps (q : QfqSched) (i : Nat) (g : QfqGroup) :
    (setGroup q i g).bitmaps = q.bitmaps := rfl

theorem setGroup_groups_self (q : QfqSched) (i : Nat) (g : QfqGroup) :
    (setGroup q i g).groups i = g := by
  simp [setGroup]

theorem setGroup_groups_ne (q : QfqSched) (i : Nat) (g : QfqGroup) (j : Nat)
    (h : j ≠ i) : (setGroup q i g).groups j = q.groups j := by
  simp [setGroup, h]

theorem setClass_bitmaps (q : QfqSched) (c : Nat) (cl : QfqClass) :
    (setClass q c cl).bitmaps = q.bitmaps := rfl

theorem setClass_groups (q : QfqSched) (c : Nat) (cl : QfqClass) :
    (setClass q c cl).groups = q.groups := rfl

theorem setBitmapBit_groups (q : QfqSched) (s i : Nat) :
    (setBitmapBit q s i).groups = q.groups := rfl

theorem clearBitmapBit_groups (q : QfqSched) (s i : Nat) :
    (clearBitmapBit q s i).groups = q.groups := rfl

theorem move_groups_groups (q : QfqSched) (m s d : Nat) :
    (qfq_move_groups q m s d).groups = q.groups := rfl

theorem slot_insert_bitmaps (q : QfqSched) (g c r : Nat) :
    (qfq_slot_insert q g c r).bitmaps = q.bitmaps := rfl

theorem slot_insert_groups_ne (q : QfqSched) (g c r j : Nat) (h : j ≠ g) :
    (qfq_slot_insert q g c r).groups j = q.groups j := by
  simp [qfq_slot_insert, setGroup, h]

theorem slot_insert_index (q : QfqSched) (g c r : Nat) :
    ((qfq_slot_insert q g c r).groups g).index = (q.groups g).index := by
  simp [qfq_slot_insert, setGroup]

theorem slot_insert_full_ne_zero (q : QfqSched) (g c r : Nat) :
    ((qfq_slot_insert q g c r).groups g).full_slots ≠ 0 := by
  simp only [qfq_slot_insert, setGroup_groups_self]
  exact set_bit_ne_zero _ _

theorem slot_insert_full_lt (q : QfqSched) (g c r : Nat)
    (h : (q.groups g).full_slots < U64) :
    ((qfq_slot_insert q g c r).groups g).full_slots < U64 := by
  simp only [qfq_slot_insert, setGroup_groups_self]
  have h2 : (q.groups g).full_slots < 2 ^ 64 := by simpa [U64] using h
  have := set_bit_lt h2 (show (if sub64 r (q.groups g).S >>> (q.groups g).slot_shift ≥
      QFQ_MAX_SLOTS then QFQ_MAX_SLOTS - 1
      else sub64 r (q.groups g).S >>> (q.groups g).slot_shift) < 64 by
    split
    · decide
    · unfold QFQ_MAX_SLOTS at *
      omega)
  simpa [U64] using this

theorem front_slot_remove_bitmaps (q : QfqSched) (g : Nat) :
    (qfq_front_slot_remove q g).bitmaps = q.bitmaps := rfl

theorem front_slot_remove_groups_ne (q : QfqSched) (g j : Nat) (h : j ≠ g) :
    (qfq_front_slot_remove q g).groups j = q.groups j := by
  simp [qfq_front_slot_remove, setGroup, h]

theorem front_slot_remove_index (q : QfqSched) (g : Nat) :
    ((qfq_front_slot_remove q g).groups g).index = (q.groups g).index := by
  simp [qfq_front_slot_remove, setGroup]

theorem front_slot_remove_full_lt (q : QfqSched) (g : Nat)
    (h : (q.groups g).full_slots < U64) :
    ((qfq_front_slot_remove q g).groups g).full_slots < U64 := by
  simp only [qfq_front_slot_remove, setGroup_groups_self]
  split
  · have h2 : (q.groups g).full_slots < 2 ^ 64 := by simpa [U64] using h
    simpa [U64] using clear_bit_lt 0 h2
  · exact h

theorem clear_bit_zero (i : Nat) : clear_bit 0 i = 0 := by
  simp [clear_bit]

theorem slot_remove_bitmaps (q : QfqSched) (g c : Nat) :
    (qfq_slot_remove q g c).bitmaps = q.bitmaps := rfl

theorem slot_remove_groups_ne (q : QfqSched) (g c j : Nat) (h : j ≠ g) :
    (qfq_slot_remove q g c).groups j = q.groups j := by
  simp [qfq_slot_remove, setGroup, h]

theorem slot_remove_index (q : QfqSched) (g c : Nat) :
    ((qfq_slot_remove q g c).groups g).index = (q.groups g).index := by
  simp [qfq_slot_remove, setGroup]

theorem slot_remove_full_lt (q : QfqSched) (g c : Nat)
    (h : (q.groups g).full_slots < U64) :
    ((qfq_slot_remove q g c).groups g).full_slots < U64 := by
  simp only [qfq_slot_remove, setGroup_groups_self]
  split
  · have h2 : (q.groups g).full_slots < 2 ^ 64 := by simpa [U64] using h
    simpa [U64] using clear_bit_lt _ h2
  · exact h

theorem slot_remove_full_zero (q : QfqSched) (g c : Nat)
    (h : (q.groups g).full_slots = 0) :
    ((qfq_slot_remove q g c).groups g).full_slots = 0 := by
  simp only [qfq_slot_remove, setGroup_groups_self]
  rw [h]
  split
  · exact clear_bit_zero _
  · rfl

theorem ne_zero_of_testBit {w k : Nat} (h : w.testBit k = true) : w ≠ 0 := by
  intro h0
  rw [h0, Nat.zero_testBit] at h
  exact Bool.noConfusion h

theorem slot_scan_none_iff (q : QfqSched) (g : Nat) :
    (qfq_slot_scan q g).2 = none ↔ (q.groups g).full_slots = 0 := by
  unfold qfq_slot_scan
  dsimp only
  split
  · simpa
  · simpa

theorem slot_scan_bitmaps (q : QfqSched) (g : Nat) :
    (qfq_slot_scan q g).1.bitmaps = q.bitmaps := by
  unfold qfq_slot_scan
  dsimp only
  split
  · rfl
  · split
    · rfl
    · rfl

theorem slot_scan_groups_ne (q : QfqSched) (g j : Nat) (h : j ≠ g) :
    (qfq_slot_scan q g).1.groups j = q.groups j := by
  unfold qfq_slot_scan
  dsimp only
  split
  · rfl
  · split
    · exact setGroup_groups_ne q g _ j h
    · rfl

theorem slot_scan_index (q : QfqSched) (g : Nat) :
    ((qfq_slot_scan q g).1.groups g).index = (q.groups g).index := by
  unfold qfq_slot_scan
  dsimp only
  split
  · rfl
  · split
    · rw [setGroup_groups_self]
    · rfl

theorem slot_scan_full (q : QfqSched) (g : Nat)
    (hf : (q.groups g).full_slots ≠ 0) (hlt : (q.groups g).full_slots < U64) :
    ((qfq_slot_scan q g).1.groups g).full_slots ≠ 0 ∧
    ((qfq_slot_scan q g).1.groups g).full_slots < U64 := by
  unfold qfq_slot_scan
  dsimp only
  rw [if_neg hf]
  split
  · rw [setGroup_groups_self]
    dsimp only
    constructor
    · intro h0
      have hb := ffs0_testBit hf hlt
      rw [show ffs0 ((q.groups g).full_slots) = ffs0 ((q.groups g).full_slots) + 0
          from rfl, ← Nat.testBit_shiftRight, h0, Nat.zero_testBit] at hb
      exact Bool.noConfusion hb
    · have hle : (q.groups g).full_slots >>> ffs0 ((q.groups g).full_slots) ≤
          (q.groups g).full_slots := by
        rw [Nat.shiftRight_eq_div_pow]
        exact Nat.div_le_self _ _
      omega
  · exact ⟨hf, hlt⟩

/-! ## stateCount helpers -/

theorem stateCount_clearBitmapBit_ne (q : QfqSched) (s i j : Nat) (h : j ≠ i) :
    stateCount (clearBitmapBit q s i) j = stateCount q j := by
  have hne : i ≠ j := Ne.symm h
  unfold stateCount ER IR EB IB
  simp [stateBit_clearBitmapBit, hne]

theorem stateCount_setBitmapBit_ne (q : QfqSched) (s i j : Nat) (h : j ≠ i) :
    stateCount (setBitmapBit q s i) j = stateCount q j := by
  have hne : i ≠ j := Ne.symm h
  unfold stateCount ER IR EB IB
  simp [stateBit_setBitmapBit, hne]

theorem stateCount_eq_zero_of_bits (q : QfqSched) (j : Nat)
    (h0 : (q.bitmaps 0).testBit j = false) (h1 : (q.bitmaps 1).testBit j = false)
    (h2 : (q.bitmaps 2).testBit j = false) (h3 : (q.bitmaps 3).testBit j = false) :
    stateCount q j = 0 := by
  simp [stateCount, ER, IR, EB, IB, h0, h1, h2, h3]

theorem stateCount_zero_bits (q : QfqSched) (j : Nat) (h : stateCount q j = 0) :
    ∀ t, (q.bitmaps t).testBit j = true → ¬ t < 4 := by
  intro t ht hlt
  unfold stateCount ER IR EB IB at h
  interval_cases t <;> rw [ht] at h <;> simp at h <;> omega

theorem stateCount_one_of_set (q : QfqSched) (s i : Nat) (hs : s < 4)
    (hz : stateCount q i = 0) : stateCount (setBitmapBit q s i) i = 1 := by
  have hb := stateCount_zero_bits q i hz
  have h0 : (q.bitmaps 0).testBit i = false := by
    cases hx : (q.bitmaps 0).testBit i
    · rfl
    · exact absurd (by decide) (hb 0 hx)
  have h1 : (q.bitmaps 1).testBit i = false := by
    cases hx : (q.bitmaps 1).testBit i
    · rfl
    · exact absurd (by decide) (hb 1 hx)
  have h2 : (q.bitmaps 2).testBit i = false := by
    cases hx : (q.bitmaps 2).testBit i
    · rfl
    · exact absurd (by decide) (hb 2 hx)
  have h3 : (q.bitmaps 3).testBit i = false := by
    cases hx : (q.bitmaps 3).testBit i
    · rfl
    · exact absurd (by decide) (hb 3 hx)
  unfold stateCount ER IR EB IB
  simp only [stateBit_setBitmapBit, h0, h1, h2, h3]
  interval_cases s <;> simp

theorem er_bit_only (q : QfqSched) (j : Nat) (hc : stateCount q j ≤ 1)
    (her : (q.bitmaps 0).testBit j = true) :
    (q.bitmaps 1).testBit j = false ∧ (q.bitmaps 2).testBit j = false ∧
    (q.bitmaps 3).testBit j = false := by
  unfold stateCount ER IR EB IB at hc
  rw [her] at hc
  by_cases h1 : (q.bitmaps 1).testBit j <;>
    by_cases h2 : (q.bitmaps 2).testBit j <;>
      by_cases h3 : (q.bitmaps 3).testBit j <;>
        simp_all

/-! ## Further helpers for the bitmap-invariant preservation proofs -/

theorem bitmaps_lt_U64 (q : QfqSched) (hbb : BitmapsBounded q) :
    ∀ t, t < 4 → q.bitmaps t < U64 := by
  intro t ht
  have h := hbb t ht
  have hle : (2 : Nat) ^ (QFQ_MAX_INDEX + 1) ≤ 2 ^ 64 :=
    Nat.pow_le_pow_right (by decide) (by decide)
  unfold U64
  omega

theorem stateCount_zero_of_ge (q : QfqSched) (hbb : BitmapsBounded q) (j : Nat)
    (hj : QFQ_MAX_INDEX + 1 ≤ j) : stateCount q j = 0 := by
  unfold stateCount ER IR EB IB
  rw [testBit_ge_of_lt_two_pow (hbb 0 (by decide)) hj,
    testBit_ge_of_lt_two_pow (hbb 1 (by decide)) hj,
    testBit_ge_of_lt_two_pow (hbb 2 (by decide)) hj,
    testBit_ge_of_lt_two_pow (hbb 3 (by decide)) hj]
  simp

theorem qfq_calc_state_lt_four (q : QfqSched) (g : Nat) :
    qfq_calc_state q g < 4 := by
  unfold qfq_calc_state
  dsimp only
  split
  · split
    · split <;> decide
    · split <;> decide
  · split <;> decide

theorem bdiff_high_ne_zero {b i : Nat} (hb : b < U64)
    (h : b.testBit i = true) : bdiff b (1 <<< i - 1) ≠ 0 := by
  apply ne_zero_of_testBit (k := i)
  rw [testBit_bdiff _ i hb, h]
  have hlt : 1 <<< i - 1 < 2 ^ i := by
    rw [Nat.shiftLeft_eq, Nat.one_mul]
    have := Nat.two_pow_pos i
    omega
  rw [testBit_ge_of_lt_two_pow hlt (Nat.le_refl i)]
  rfl

theorem slot_rotate_bitmaps (q : QfqSched) (g r : Nat) :
    (qfq_slot_rotate q g r).bitmaps = q.bitmaps := rfl

theorem slot_rotate_groups_ne (q : QfqSched) (g r j : Nat) (h : j ≠ g) :
    (qfq_slot_rotate q g r).groups j = q.groups j := by
  simp [qfq_slot_rotate, setGroup, h]

theorem slot_rotate_index (q : QfqSched) (g r : Nat) :
    ((qfq_slot_rotate q g r).groups g).index = (q.groups g).index := by
  simp [qfq_slot_rotate, setGroup]

theorem slot_scan_fst_of_zero (q : QfqSched) (g : Nat)
    (h : (q.groups g).full_slots = 0) : (qfq_slot_scan q g).1 = q := by
  unfold qfq_slot_scan
  dsimp only
  rw [if_pos h]

theorem uc_bitmaps (q : QfqSched) (g c l : Nat) :
    (qfq_update_class q g c l).1.bitmaps = q.bitmaps := by
  unfold qfq_update_class
  dsimp only
  split
  · rfl
  · split
    · rfl
    · split
      · rfl
      · rfl

theorem uc_groups_ne (q : QfqSched) (g c l j : Nat) (h : j ≠ g) :
    (qfq_update_class q g c l).1.groups j = q.groups j := by
  unfold qfq_update_class
  dsimp only
  split
  · exact front_slot_remove_groups_ne _ g j h
  · split
    · exact front_slot_remove_groups_ne _ g j h
    · split
      · rfl
      · rw [slot_insert_groups_ne _ g _ _ j h]
        exact front_slot_remove_groups_ne _ g j h

theorem uc_index (q : QfqSched) (g c l : Nat) :
    ((qfq_update_class q g c l).1.groups g).index = (q.groups g).index := by
  unfold qfq_update_class
  dsimp only
  split
  · exact front_slot_remove_index _ g
  · split
    · exact front_slot_remove_index _ g
    · split
      · rfl
      · rw [slot_insert_index _ g]
        exact front_slot_remove_index _ g

theorem uc_full_lt (q : QfqSched) (g c l : Nat)
    (h : (q.groups g).full_slots < U64) :
    ((qfq_update_class q g c l).1.groups g).full_slots < U64 := by
  unfold qfq_update_class
  dsimp only
  split
  · exact front_slot_remove_full_lt _ g h
  · split
    · exact front_slot_remove_full_lt _ g h
    · split
      · exact h
      · exact slot_insert_full_lt _ g _ _ (front_slot_remove_full_lt _ g h)

theorem uc_snd_or (q : QfqSched) (g c l : Nat) :
    (qfq_update_class q g c l).2 = true ∨
    (qfq_update_class q g c l).1.groups = q.groups := by
  unfold qfq_update_class
  dsimp only
  split
  · exact Or.inl rfl
  · split
    · exact Or.inl rfl
    · split
      · exact Or.inr rfl
      · exact Or.inl rfl

theorem unblock_groups_eq (q : QfqSched) (i f : Nat) :
    (qfq_unblock_groups q i f).groups = q.groups := by
  unfold qfq_unblock_groups
  dsimp only
  split
  · rfl
  · rfl

theorem unblock_stateCount (q : QfqSched) (i f : Nat)
    (hbb : ∀ t, t < 4 → q.bitmaps t < U64)
    (hdisj : ∀ j, j < 64 → stateCount q j ≤ 1) :
    ∀ j, j < 64 → stateCount (qfq_unblock_groups q i f) j = stateCount q j := by
  intro j hj
  unfold qfq_unblock_groups
  dsimp only
  split
  · rfl
  · exact two_moves_stateCount q _ _ EB ER IB IR (by decide) (by decide) (by decide)
      (by decide) (by decide) (by decide) hbb hdisj j hj

theorem unblock_bounded (q : QfqSched) (i f m : Nat) (hm : m ≤ 64)
    (hall : ∀ t, t < 4 → q.bitmaps t < 2 ^ m) :
    ∀ t, t < 4 → (qfq_unblock_groups q i f).bitmaps t < 2 ^ m := by
  intro t ht
  unfold qfq_unblock_groups
  dsimp only
  split
  · exact hall t ht
  · exact two_moves_bounded q _ _ EB ER IB IR (by decide) (by decide) (by decide)
      (by decide) (by decide) (by decide) m hm hall t ht

theorem make_eligible_bounded (q : QfqSched) (v m : Nat) (hm : m ≤ 64)
    (hall : ∀ t, t < 4 → q.bitmaps t < 2 ^ m) :
    ∀ t, t < 4 → (qfq_make_eligible q v).bitmaps t < 2 ^ m := by
  intro t ht
  unfold qfq_make_eligible
  dsimp only
  split
  · exact two_moves_bounded q _ _ IR ER IB EB (by decide) (by decide) (by decide)
      (by decide) (by decide) (by decide) m hm hall t ht
  · exact hall t ht

theorem update_eligible_bounded (q : QfqSched) (v m : Nat) (hm : m ≤ 64)
    (hall : ∀ t, t < 4 → q.bitmaps t < 2 ^ m) :
    ∀ t, t < 4 → (qfq_update_eligible q v).bitmaps t < 2 ^ m := by
  intro t ht
  unfold qfq_update_eligible
  split
  · exact make_eligible_bounded q v m hm hall t ht
  · exact hall t ht

theorem ust_shape (q : QfqSched) (now : Nat) :
    qfq_update_system_time q now = q ∨
    ∃ r : QfqSched, r.bitmaps = q.bitmaps ∧ r.groups = q.groups ∧
      r.classes = q.classes ∧
      qfq_update_system_time q now = qfq_update_eligible r q.V := by
  unfold qfq_update_system_time
  dsimp only
  split
  · exact Or.inl rfl
  · right
    refine ⟨_, ?_, ?_, ?_, rfl⟩ <;>
      (split
       · split <;> rfl
       · split
         · rfl
         · rfl)

theorem deact_decomp (q : QfqSched) (cid : Nat) :
    qfq_deactivate_class q cid =
      qfq_update_eligible (qfq_deact_q3 q cid) (qfq_deact_q3 q cid).V := rfl

theorem bitmaps_clearBitmapBit (q : QfqSched) (s i t : Nat) :
    (clearBitmapBit q s i).bitmaps t =
      if t = s then clear_bit (q.bitmaps s) i else q.bitmaps t := by
  unfold clearBitmapBit setBitmap
  by_cases h : t = s
  · simp [h]
  · simp [h]

theorem bitmaps_setBitmapBit (q : QfqSched) (s i t : Nat) :
    (setBitmapBit q s i).bitmaps t =
      if t = s then set_bit (q.bitmaps s) i else q.bitmaps t := by
  unfold setBitmapBit setBitmap
  by_cases h : t = s
  · simp [h]
  · simp [h]

theorem clearBitmapBit_bounded (q : QfqSched) (s i : Nat)
    (hbb : BitmapsBounded q) : BitmapsBounded (clearBitmapBit q s i) := by
  intro t ht
  rw [bitmaps_clearBitmapBit]
  by_cases h : t = s
  · subst h
    rw [if_pos rfl]
    exact clear_bit_lt i (hbb t ht)
  · rw [if_neg h]
    exact hbb t ht

theorem setBitmapBit_bounded (q : QfqSched) (s i : Nat)
    (hi : i < QFQ_MAX_INDEX + 1) (hbb : BitmapsBounded q) :
    BitmapsBounded (setBitmapBit q s i) := by
  intro t ht
  rw [bitmaps_setBitmapBit]
  by_cases h : t = s
  · subst h
    rw [if_pos rfl]
    exact set_bit_lt (hbb t ht) hi
  · rw [if_neg h]
    exact hbb t ht

theorem stateCount_congr {q r : QfqSched} (h : q.bitmaps = r.bitmaps) (j : Nat) :
    stateCount q j = stateCount r j := by
  unfold stateCount ER IR EB IB
  rw [h]

theorem bounded_congr {q r : QfqSched} (h : q.bitmaps = r.bitmaps)
    (hbb : BitmapsBounded r) : BitmapsBounded q := by
  intro t ht
  rw [h]
  exact hbb t ht

theorem stateCount_setGroup (q : QfqSched) (i : Nat) (g : QfqGroup) (j : Nat) :
    stateCount (setGroup q i g) j = stateCount q j := rfl

theorem count_clear4_IREBIBER (q : QfqSched) (gi : Nat) :
    stateCount (clearBitmapBit (clearBitmapBit (clearBitmapBit
      (clearBitmapBit q IR gi) EB gi) IB gi) ER gi) gi = 0 := by
  simp [stateCount, ER, IR, EB, IB, stateBit_clearBitmapBit]

theorem count_clear4_ERIREBIB (q : QfqSched) (gi : Nat) :
    stateCount (clearBitmapBit (clearBitmapBit (clearBitmapBit
      (clearBitmapBit q ER gi) IR gi) EB gi) IB gi) gi = 0 := by
  simp [stateCount, ER, IR, EB, IB, stateBit_clearBitmapBit]

theorem inv_update_eligible (q : QfqSched) (v : Nat) (hbb : BitmapsBounded q)
    (hinv : QfqBitmapInv q) : QfqBitmapInv (qfq_update_eligible q v) := by
  obtain ⟨hd, hf⟩ := hinv
  constructor
  · intro j hj
    rw [update_eligible_stateCount q v (bitmaps_lt_U64 q hbb) hd j hj]
    exact hd j hj
  · intro i hi
    have hi64 : i < 64 := by
      unfold QFQ_MAX_INDEX at hi
      omega
    rw [update_eligible_stateCount q v (bitmaps_lt_U64 q hbb) hd i hi64,
      update_eligible_groups]
    exact hf i hi

theorem deactA_inv (q2 : QfqSched) (gi : Nat) (hgi : gi < QFQ_MAX_INDEX + 1)
    (hidx : (q2.groups gi).index = gi)
    (hbb2 : BitmapsBounded q2) (hdisj2 : ∀ j, j < 64 → stateCount q2 j ≤ 1)
    (hfull2 : ∀ i, i < QFQ_MAX_INDEX + 1 → i ≠ gi →
      ((q2.groups i).full_slots ≠ 0 ↔ stateCount q2 i = 1))
    (hf0 : (q2.groups gi).full_slots = 0) :
    QfqBitmapInv (qfq_deactA q2 gi) ∧ BitmapsBounded (qfq_deactA q2 gi) := by
  unfold qfq_deactA
  dsimp only
  rw [hidx]
  have hER : (clearBitmapBit (clearBitmapBit (clearBitmapBit q2 IR gi) EB gi)
      IB gi).bitmaps ER = q2.bitmaps ER := by
    simp [bitmaps_clearBitmapBit, ER, IR, EB, IB]
  have hguard : ¬(((clearBitmapBit (clearBitmapBit (clearBitmapBit q2 IR gi)
      EB gi) IB gi).bitmaps ER).testBit gi = true ∧
      bdiff ((clearBitmapBit (clearBitmapBit (clearBitmapBit q2 IR gi) EB gi)
        IB gi).bitmaps ER) (1 <<< gi - 1) = 0) := by
    rw [hER]
    rintro ⟨h1, h2⟩
    exact bdiff_high_ne_zero (bitmaps_lt_U64 q2 hbb2 ER (by decide)) h1 h2
  rw [if_neg hguard]
  refine ⟨⟨?_, ?_⟩, ?_⟩
  · intro j hj
    by_cases hjg : j = gi
    · subst hjg
      rw [count_clear4_IREBIBER]
      exact Nat.zero_le 1
    · rw [stateCount_clearBitmapBit_ne _ _ _ _ hjg,
        stateCount_clearBitmapBit_ne _ _ _ _ hjg,
        stateCount_clearBitmapBit_ne _ _ _ _ hjg,
        stateCount_clearBitmapBit_ne _ _ _ _ hjg]
      exact hdisj2 j hj
  · intro i hi
    rw [clearBitmapBit_groups, clearBitmapBit_groups, clearBitmapBit_groups,
      clearBitmapBit_groups]
    by_cases hig : i = gi
    · subst hig
      rw [count_clear4_IREBIBER, hf0]
      simp
    · rw [stateCount_clearBitmapBit_ne _ _ _ _ hig,
        stateCount_clearBitmapBit_ne _ _ _ _ hig,
        stateCount_clearBitmapBit_ne _ _ _ _ hig,
        stateCount_clearBitmapBit_ne _ _ _ _ hig]
      exact hfull2 i hi hig
  · exact clearBitmapBit_bounded _ _ _ (clearBitmapBit_bounded _ _ _
      (clearBitmapBit_bounded _ _ _ (clearBitmapBit_bounded _ _ _ hbb2)))

theorem clear4_setG_setB_inv (qa : QfqSched) (gi : Nat) (X : QfqGroup) (s : Nat)
    (hs : s < 4) (hXfull : X.full_slots ≠ 0)
    (hgi : gi < QFQ_MAX_INDEX + 1)
    (hbba : BitmapsBounded qa) (hdisja : ∀ j, j < 64 → stateCount qa j ≤ 1)
    (hfulla : ∀ i, i < QFQ_MAX_INDEX + 1 → i ≠ gi →
      ((qa.groups i).full_slots ≠ 0 ↔ stateCount qa i = 1)) :
    QfqBitmapInv (setBitmapBit (setGroup (clearBitmapBit (clearBitmapBit
      (clearBitmapBit (clearBitmapBit qa ER gi) IR gi) EB gi) IB gi) gi X) s gi) ∧
    BitmapsBounded (setBitmapBit (setGroup (clearBitmapBit (clearBitmapBit
      (clearBitmapBit (clearBitmapBit qa ER gi) IR gi) EB gi) IB gi) gi X) s gi) := by
  have hz : stateCount (setGroup (clearBitmapBit (clearBitmapBit
      (clearBitmapBit (clearBitmapBit qa ER gi) IR gi) EB gi) IB gi) gi X) gi = 0 := by
    rw [stateCount_setGroup]
    exact count_clear4_ERIREBIB qa gi
  refine ⟨⟨?_, ?_⟩, ?_⟩
  · intro j hj
    by_cases hjg : j = gi
    · subst hjg
      rw [stateCount_one_of_set _ _ _ hs hz]
    · rw [stateCount_setBitmapBit_ne _ _ _ _ hjg, stateCount_setGroup,
        stateCount_clearBitmapBit_ne _ _ _ _ hjg,
        stateCount_clearBitmapBit_ne _ _ _ _ hjg,
        stateCount_clearBitmapBit_ne _ _ _ _ hjg,
        stateCount_clearBitmapBit_ne _ _ _ _ hjg]
      exact hdisja j hj
  · intro i hi
    rw [setBitmapBit_groups]
    by_cases hig : i = gi
    · subst hig
      rw [setGroup_groups_self, stateCount_one_of_set _ _ _ hs hz]
      simp [hXfull]
    · rw [setGroup_groups_ne _ _ _ _ hig, clearBitmapBit_groups,
        clearBitmapBit_groups, clearBitmapBit_groups, clearBitmapBit_groups,
        stateCount_setBitmapBit_ne _ _ _ _ hig, stateCount_setGroup,
        stateCount_clearBitmapBit_ne _ _ _ _ hig,
        stateCount_clearBitmapBit_ne _ _ _ _ hig,
        stateCount_clearBitmapBit_ne _ _ _ _ hig,
        stateCount_clearBitmapBit_ne _ _ _ _ hig]
      exact hfulla i hi hig
  · apply setBitmapBit_bounded _ _ _ hgi
    apply bounded_congr (setGroup_bitmaps _ _ _)
    exact clearBitmapBit_bounded _ _ _ (clearBitmapBit_bounded _ _ _
      (clearBitmapBit_bounded _ _ _ (clearBitmapBit_bounded _ _ _ hbba)))

theorem deactB_inv (q2 : QfqSched) (gi : Nat) (hgi : gi < QFQ_MAX_INDEX + 1)
    (hidx : (q2.groups gi).index = gi)
    (hbb2 : BitmapsBounded q2) (hdisj2 : ∀ j, j < 64 → stateCount q2 j ≤ 1)
    (hfull2 : ∀ i, i < QFQ_MAX_INDEX + 1 → i ≠ gi →
      ((q2.groups i).full_slots ≠ 0 ↔ stateCount q2 i = 1))
    (hcnt : stateCount q2 gi = 1)
    (hfne : (q2.groups gi).full_slots ≠ 0)
    (hflt : (q2.groups gi).full_slots < U64) :
    QfqBitmapInv (qfq_deactB q2 gi) ∧ BitmapsBounded (qfq_deactB q2 gi) := by
  have hsbm : (qfq_slot_scan q2 gi).1.bitmaps = q2.bitmaps := slot_scan_bitmaps q2 gi
  have hsidx : ((qfq_slot_scan q2 gi).1.groups gi).index = gi := by
    rw [slot_scan_index]
    exact hidx
  have hsfull := slot_scan_full q2 gi hfne hflt
  have hbba : BitmapsBounded (qfq_slot_scan q2 gi).1 := bounded_congr hsbm hbb2
  have hcnta : ∀ j, stateCount (qfq_slot_scan q2 gi).1 j = stateCount q2 j :=
    stateCount_congr hsbm
  have hdisja : ∀ j, j < 64 → stateCount (qfq_slot_scan q2 gi).1 j ≤ 1 := by
    intro j hj
    rw [hcnta j]
    exact hdisj2 j hj
  have hfulla : ∀ i, i < QFQ_MAX_INDEX + 1 → i ≠ gi →
      (((qfq_slot_scan q2 gi).1.groups i).full_slots ≠ 0 ↔
        stateCount (qfq_slot_scan q2 gi).1 i = 1) := by
    intro i hi hig
    rw [slot_scan_groups_ne _ _ _ hig, hcnta i]
    exact hfull2 i hi hig
  unfold qfq_deactB
  dsimp only
  rw [hsidx]
  split
  · rw [setGroup_groups_self]
    dsimp only
    exact clear4_setG_setB_inv _ gi _ _ (qfq_calc_state_lt_four _ _)
      hsfull.1 hgi hbba hdisja hfulla
  · refine ⟨⟨hdisja, ?_⟩, hbba⟩
    intro i hi
    by_cases hig : i = gi
    · subst hig
      rw [hcnta i]
      simp [hsfull.1, hcnt]
    · exact hfulla i hi hig

theorem deactivate_inv (q : QfqSched) (cid : Nat)
    (hinv : QfqBitmapInv q) (hwf : GroupsWF q) (hbb : BitmapsBounded q)
    (hcl : (q.classes cid).grp < QFQ_MAX_INDEX + 1)
    (hfs : ∀ i, i < QFQ_MAX_INDEX + 1 → (q.groups i).full_slots < U64) :
    QfqBitmapInv (qfq_deactivate_class q cid) := by
  obtain ⟨hdisj, hfull⟩ := hinv
  have hc2 : ∀ j, stateCount (qfq_deact_q2 q cid) j = stateCount q j :=
    stateCount_congr rfl
  have hbb2 : BitmapsBounded (qfq_deact_q2 q cid) := bounded_congr rfl hbb
  have hdisj2 : ∀ j, j < 64 → stateCount (qfq_deact_q2 q cid) j ≤ 1 := by
    intro j hj
    rw [hc2 j]
    exact hdisj j hj
  have hq2g_ne : ∀ i, i ≠ (q.classes cid).grp →
      (qfq_deact_q2 q cid).groups i = q.groups i := by
    intro i h
    unfold qfq_deact_q2
    rw [slot_remove_groups_ne _ _ _ _ h]
    rfl
  have hfull2 : ∀ i, i < QFQ_MAX_INDEX + 1 → i ≠ (q.classes cid).grp →
      (((qfq_deact_q2 q cid).groups i).full_slots ≠ 0 ↔
        stateCount (qfq_deact_q2 q cid) i = 1) := by
    intro i hi hig
    rw [hq2g_ne i hig, hc2 i]
    exact hfull i hi
  have hq2idx : ((qfq_deact_q2 q cid).groups (q.classes cid).grp).index =
      (q.classes cid).grp := by
    unfold qfq_deact_q2
    rw [slot_remove_index]
    exact hwf _ hcl
  have hq2flt : ((qfq_deact_q2 q cid).groups (q.classes cid).grp).full_slots <
      U64 := by
    unfold qfq_deact_q2
    exact slot_remove_full_lt _ _ _ (hfs _ hcl)
  have hq2zero : (q.groups (q.classes cid).grp).full_slots = 0 →
      ((qfq_deact_q2 q cid).groups (q.classes cid).grp).full_slots = 0 := by
    intro h
    unfold qfq_deact_q2
    exact slot_remove_full_zero _ _ _ h
  have hmain : QfqBitmapInv (qfq_deact_q3 q cid) ∧
      BitmapsBounded (qfq_deact_q3 q cid) := by
    unfold qfq_deact_q3
    dsimp only
    split
    · next hf0 =>
      exact deactA_inv _ _ hcl hq2idx hbb2 hdisj2 hfull2 hf0
    · next hfne =>
      have hcnt : stateCount (qfq_deact_q2 q cid) (q.classes cid).grp = 1 := by
        rw [hc2]
        rw [← hfull _ hcl]
        intro h0
        exact hfne (hq2zero h0)
      split
      · exact deactB_inv _ _ hcl hq2idx hbb2 hdisj2 hfull2 hcnt hfne hq2flt
      · refine ⟨⟨hdisj2, ?_⟩, hbb2⟩
        intro i hi
        by_cases hig : i = (q.classes cid).grp
        · subst hig
          exact ⟨fun _ => hcnt, fun _ => hfne⟩
        · exact hfull2 i hi hig
  rw [deact_decomp]
  exact inv_update_eligible _ _ hmain.2 hmain.1

theorem update_start_groups (q : QfqSched) (cid : Nat) :
    (qfq_update_start q cid).groups = q.groups := rfl

theorem us_classes_grp (q : QfqSched) (cid : Nat) :
    ((qfq_update_start q cid).classes cid).grp = (q.classes cid).grp := by
  simp [qfq_update_start, setClass]

theorem us_classes_S (q : QfqSched) (cid : Nat) :
    ((qfq_update_start q cid).classes cid).S =
      qfq_update_start_S q (q.classes cid) := by
  simp [qfq_update_start, setClass]

theorem count_clearIRIB (q : QfqSched) (gi : Nat)
    (hER : (q.bitmaps ER).testBit gi = false)
    (hEB : (q.bitmaps EB).testBit gi = false) :
    stateCount (clearBitmapBit (clearBitmapBit q IR gi) IB gi) gi = 0 := by
  have h0 : (q.bitmaps 0).testBit gi = false := hER
  have h2 : (q.bitmaps 2).testBit gi = false := hEB
  simp [stateCount, ER, IR, EB, IB, stateBit_clearBitmapBit, h0, h2]

theorem slot_insert_inv (q : QfqSched) (gi c r : Nat)
    (hgi : gi < QFQ_MAX_INDEX + 1)
    (hdisjq : ∀ j, j < 64 → stateCount q j ≤ 1)
    (hfullq : ∀ i, i < QFQ_MAX_INDEX + 1 →
      ((q.groups i).full_slots ≠ 0 ↔ stateCount q i = 1))
    (hfne : (q.groups gi).full_slots ≠ 0) :
    QfqBitmapInv (qfq_slot_insert q gi c r) := by
  have hbm : (qfq_slot_insert q gi c r).bitmaps = q.bitmaps := rfl
  constructor
  · intro j hj
    rw [stateCount_congr hbm j]
    exact hdisjq j hj
  · intro i hi
    rw [stateCount_congr hbm i]
    by_cases hig : i = gi
    · subst hig
      exact ⟨fun _ => (hfullq i hi).mp hfne, fun _ => slot_insert_full_ne_zero _ _ _ _⟩
    · rw [slot_insert_groups_ne _ _ _ _ _ hig]
      exact hfullq i hi

theorem setG_setB_insert_inv (qpre : QfqSched) (gi : Nat) (X : QfqGroup)
    (s c r : Nat) (hs : s < 4) (hgi : gi < QFQ_MAX_INDEX + 1)
    (hbbp : BitmapsBounded qpre)
    (hdisjp : ∀ j, j < 64 → stateCount qpre j ≤ 1)
    (hfullp : ∀ i, i < QFQ_MAX_INDEX + 1 → i ≠ gi →
      ((qpre.groups i).full_slots ≠ 0 ↔ stateCount qpre i = 1))
    (hz : stateCount qpre gi = 0) :
    QfqBitmapInv (qfq_slot_insert (setBitmapBit (setGroup qpre gi X) s gi)
      gi c r) := by
  have hone : stateCount (setBitmapBit (setGroup qpre gi X) s gi) gi = 1 :=
    stateCount_one_of_set _ _ _ hs (by rw [stateCount_setGroup]; exact hz)
  have hbm : (qfq_slot_insert (setBitmapBit (setGroup qpre gi X) s gi)
      gi c r).bitmaps = (setBitmapBit (setGroup qpre gi X) s gi).bitmaps := rfl
  constructor
  · intro j hj
    rw [stateCount_congr hbm j]
    by_cases hjg : j = gi
    · subst hjg
      rw [hone]
    · rw [stateCount_setBitmapBit_ne _ _ _ _ hjg, stateCount_setGroup]
      exact hdisjp j hj
  · intro i hi
    rw [stateCount_congr hbm i]
    by_cases hig : i = gi
    · subst hig
      exact ⟨fun _ => hone, fun _ => slot_insert_full_ne_zero _ _ _ _⟩
    · rw [slot_insert_groups_ne _ _ _ _ _ hig, setBitmapBit_groups,
        setGroup_groups_ne _ _ _ _ hig, stateCount_setBitmapBit_ne _ _ _ _ hig,
        stateCount_setGroup]
      exact hfullp i hi hig

theorem activate_inv (q : QfqSched) (cid pkt_len : Nat)
    (hinv : QfqBitmapInv q) (hwf : GroupsWF q) (hbb : BitmapsBounded q)
    (hcl : (q.classes cid).grp < QFQ_MAX_INDEX + 1)
    (hside : qfq_gt (q.groups (q.classes cid).grp).S
        (qfq_update_start_S q (q.classes cid)) = true →
      (q.bitmaps ER).testBit (q.classes cid).grp = false ∧
      (q.bitmaps EB).testBit (q.classes cid).grp = false) :
    QfqBitmapInv (qfq_activate_class q cid pkt_len) := by
  obtain ⟨hdisj, hfull⟩ := hinv
  have hgi64 : (q.classes cid).grp < 64 := by
    unfold QFQ_MAX_INDEX at hcl
    omega
  unfold qfq_activate_class
  dsimp only
  simp only [us_classes_grp, us_classes_S, update_start_groups, setClass_groups]
  rw [hwf _ hcl]
  split
  · next hA =>
    refine slot_insert_inv _ _ _ _ hcl ?_ ?_ hA.1
    · exact hdisj
    · exact hfull
  · next hA =>
    rw [setGroup_groups_self]
    dsimp only
    split
    · next hfne0 =>
      have hgt : qfq_gt (q.groups (q.classes cid).grp).S
          (qfq_update_start_S q (q.classes cid)) = true := by
        by_contra hn
        exact hA ⟨hfne0, hn⟩
      rw [clearBitmapBit_groups, clearBitmapBit_groups, slot_rotate_index,
        setClass_groups, update_start_groups, hwf _ hcl]
      refine setG_setB_insert_inv _ _ _ _ _ _ (qfq_calc_state_lt_four _ _)
        hcl ?_ ?_ ?_ ?_
      · exact clearBitmapBit_bounded _ _ _ (clearBitmapBit_bounded _ _ _
          (bounded_congr rfl hbb))
      · intro j hj
        by_cases hjg : j = (q.classes cid).grp
        · subst hjg
          exact Eq.trans_le
            (count_clearIRIB q _ (hside hgt).1 (hside hgt).2) (Nat.zero_le 1)
        · rw [stateCount_clearBitmapBit_ne _ _ _ _ hjg,
            stateCount_clearBitmapBit_ne _ _ _ _ hjg]
          exact hdisj j hj
      · intro i hi hig
        rw [clearBitmapBit_groups, clearBitmapBit_groups,
          slot_rotate_groups_ne _ _ _ _ hig,
          stateCount_clearBitmapBit_ne _ _ _ _ hig,
          stateCount_clearBitmapBit_ne _ _ _ _ hig]
        exact hfull i hi
      · exact count_clearIRIB q _ (hside hgt).1 (hside hgt).2
    · next hf0 =>
      have hfz : (q.groups (q.classes cid).grp).full_slots = 0 := by
        by_contra hn
        exact hf0 hn
      have hz : stateCount q (q.classes cid).grp = 0 := by
        have h1 : ¬ stateCount q (q.classes cid).grp = 1 := fun hc =>
          (hfull _ hcl).mpr hc hfz
        have h2 := hdisj _ hgi64
        omega
      rw [setClass_groups, update_start_groups, hwf _ hcl]
      refine setG_setB_insert_inv _ _ _ _ _ _ (qfq_calc_state_lt_four _ _)
        hcl ?_ ?_ ?_ ?_
      · exact bounded_congr rfl hbb
      · exact hdisj
      · intro i hi hig
        exact hfull i hi
      · exact hz

theorem deq_decomp2 (q0 : QfqSched) (now : Nat) :
    qfq_dequeue q0 now = qfq_deq_res q0 now := rfl

theorem deq_fst_cases (q0 : QfqSched) (now : Nat) :
    (qfq_dequeue q0 now).1 = qfq_update_system_time q0 now ∨
    ∃ gi cid len rest v,
      gi = ffs0 ((qfq_update_system_time q0 now).bitmaps ER) ∧
      (qfq_update_system_time q0 now).bitmaps ER ≠ 0 ∧
      (qfq_dequeue q0 now).1 =
        qfq_update_eligible
          (qfq_deq_q5 (qfq_update_system_time q0 now) gi cid len rest) v := by
  rw [deq_decomp2]
  unfold qfq_deq_res
  dsimp only
  split
  · exact Or.inl rfl
  · next hER =>
    split
    · exact Or.inl rfl
    · right
      exact ⟨_, _, _, _, _, rfl, hER, rfl⟩

theorem deq_q4_bitmaps (q : QfqSched) (gi cid len : Nat) (rest : List Nat) :
    (qfq_deq_q4pair q gi cid len rest).1.bitmaps = q.bitmaps := by
  unfold qfq_deq_q4pair
  dsimp only
  rw [uc_bitmaps]
  dsimp only
  split <;> rfl

theorem deq_q4_groups_ne (q : QfqSched) (gi cid len : Nat) (rest : List Nat)
    (i : Nat) (h : i ≠ gi) :
    (qfq_deq_q4pair q gi cid len rest).1.groups i = q.groups i := by
  unfold qfq_deq_q4pair
  dsimp only
  rw [uc_groups_ne _ _ _ _ _ h]
  dsimp only
  split <;> rfl

theorem deq_q4_index (q : QfqSched) (gi cid len : Nat) (rest : List Nat) :
    ((qfq_deq_q4pair q gi cid len rest).1.groups gi).index =
      (q.groups gi).index := by
  unfold qfq_deq_q4pair
  dsimp only
  rw [uc_index]
  dsimp only
  split <;> rfl

theorem deq_q4_full_lt (q : QfqSched) (gi cid len : Nat) (rest : List Nat)
    (h : (q.groups gi).full_slots < U64) :
    ((qfq_deq_q4pair q gi cid len rest).1.groups gi).full_slots < U64 := by
  unfold qfq_deq_q4pair
  dsimp only
  apply uc_full_lt
  dsimp only
  split <;> exact h

theorem deq_q4_snd_or (q : QfqSched) (gi cid len : Nat) (rest : List Nat) :
    (qfq_deq_q4pair q gi cid len rest).2 = true ∨
    (qfq_deq_q4pair q gi cid len rest).1.groups = q.groups := by
  unfold qfq_deq_q4pair
  dsimp only
  refine (uc_snd_or _ gi cid _).imp (fun h => h) (fun h => ?_)
  rw [h]
  dsimp only
  split <;> rfl

theorem inv_of_eq_bitmaps_groups (w q : QfqSched) (hb : w.bitmaps = q.bitmaps)
    (hg : w.groups = q.groups) (hinv : QfqBitmapInv q) : QfqBitmapInv w := by
  obtain ⟨hd, hf⟩ := hinv
  constructor
  · intro j hj
    rw [stateCount_congr hb j]
    exact hd j hj
  · intro i hi
    rw [hg, stateCount_congr hb i]
    exact hf i hi

theorem count_one_of_er (q : QfqSched) (gi : Nat)
    (h0 : (q.bitmaps ER).testBit gi = true)
    (h1 : (q.bitmaps IR).testBit gi = false)
    (h2 : (q.bitmaps EB).testBit gi = false)
    (h3 : (q.bitmaps IB).testBit gi = false) : stateCount q gi = 1 := by
  have g0 : (q.bitmaps 0).testBit gi = true := h0
  have g1 : (q.bitmaps 1).testBit gi = false := h1
  have g2 : (q.bitmaps 2).testBit gi = false := h2
  have g3 : (q.bitmaps 3).testBit gi = false := h3
  simp [stateCount, ER, IR, EB, IB, g0, g1, g2, g3]

theorem count_clearER (q : QfqSched) (gi : Nat)
    (h1 : (q.bitmaps IR).testBit gi = false)
    (h2 : (q.bitmaps EB).testBit gi = false)
    (h3 : (q.bitmaps IB).testBit gi = false) :
    stateCount (clearBitmapBit q ER gi) gi = 0 := by
  have g1 : (q.bitmaps 1).testBit gi = false := h1
  have g2 : (q.bitmaps 2).testBit gi = false := h2
  have g3 : (q.bitmaps 3).testBit gi = false := h3
  simp [stateCount, ER, IR, EB, IB, stateBit_clearBitmapBit, g1, g2, g3]

theorem clearER_unblock_inv (qc0 : QfqSched) (gi oldF : Nat)
    (hgi : gi < QFQ_MAX_INDEX + 1) (hfz : (qc0.groups gi).full_slots = 0)
    (hbb0 : BitmapsBounded qc0)
    (hdisj0 : ∀ j, j < 64 → stateCount qc0 j ≤ 1)
    (hfull0 : ∀ i, i < QFQ_MAX_INDEX + 1 → i ≠ gi →
      ((qc0.groups i).full_slots ≠ 0 ↔ stateCount qc0 i = 1))
    (hbIR : (qc0.bitmaps IR).testBit gi = false)
    (hbEB : (qc0.bitmaps EB).testBit gi = false)
    (hbIB : (qc0.bitmaps IB).testBit gi = false) :
    QfqBitmapInv (qfq_unblock_groups (clearBitmapBit qc0 ER gi) gi oldF) ∧
    BitmapsBounded (qfq_unblock_groups (clearBitmapBit qc0 ER gi) gi oldF) := by
  have hdisjc : ∀ j, j < 64 → stateCount (clearBitmapBit qc0 ER gi) j ≤ 1 := by
    intro j hj
    by_cases hjg : j = gi
    · subst hjg
      rw [count_clearER qc0 j hbIR hbEB hbIB]
      exact Nat.zero_le 1
    · rw [stateCount_clearBitmapBit_ne _ _ _ _ hjg]
      exact hdisj0 j hj
  have hbbc : BitmapsBounded (clearBitmapBit qc0 ER gi) :=
    clearBitmapBit_bounded _ _ _ hbb0
  refine ⟨⟨?_, ?_⟩, ?_⟩
  · intro j hj
    rw [unblock_stateCount _ _ _ (bitmaps_lt_U64 _ hbbc) hdisjc j hj]
    exact hdisjc j hj
  · intro i hi
    have hi64 : i < 64 := by
      unfold QFQ_MAX_INDEX at hi
      omega
    rw [unblock_groups_eq, clearBitmapBit_groups,
      unblock_stateCount _ _ _ (bitmaps_lt_U64 _ hbbc) hdisjc i hi64]
    by_cases hig : i = gi
    · subst hig
      rw [count_clearER qc0 i hbIR hbEB hbIB, hfz]
      simp
    · rw [stateCount_clearBitmapBit_ne _ _ _ _ hig]
      exact hfull0 i hi hig
  · exact unblock_bounded _ _ _ _ (by decide) hbbc

theorem setG_clearER_setB_unblock_inv (qb : QfqSched) (gi : Nat) (X : QfqGroup)
    (s oldF : Nat) (hs : s < 4) (hgi : gi < QFQ_MAX_INDEX + 1)
    (hXfull : X.full_slots ≠ 0)
    (hbbb : BitmapsBounded qb)
    (hdisjb : ∀ j, j < 64 → stateCount qb j ≤ 1)
    (hfullb : ∀ i, i < QFQ_MAX_INDEX + 1 → i ≠ gi →
      ((qb.groups i).full_slots ≠ 0 ↔ stateCount qb i = 1))
    (hbIR : (qb.bitmaps IR).testBit gi = false)
    (hbEB : (qb.bitmaps EB).testBit gi = false)
    (hbIB : (qb.bitmaps IB).testBit gi = false) :
    QfqBitmapInv (qfq_unblock_groups (setBitmapBit (clearBitmapBit
      (setGroup qb gi X) ER gi) s gi) gi oldF) ∧
    BitmapsBounded (qfq_unblock_groups (setBitmapBit (clearBitmapBit
      (setGroup qb gi X) ER gi) s gi) gi oldF) := by
  have hz : stateCount (clearBitmapBit (setGroup qb gi X) ER gi) gi = 0 :=
    count_clearER (setGroup qb gi X) gi hbIR hbEB hbIB
  have hone : stateCount (setBitmapBit (clearBitmapBit (setGroup qb gi X)
      ER gi) s gi) gi = 1 := stateCount_one_of_set _ _ _ hs hz
  have hdisje : ∀ j, j < 64 → stateCount (setBitmapBit (clearBitmapBit
      (setGroup qb gi X) ER gi) s gi) j ≤ 1 := by
    intro j hj
    by_cases hjg : j = gi
    · subst hjg
      rw [hone]
    · rw [stateCount_setBitmapBit_ne _ _ _ _ hjg,
        stateCount_clearBitmapBit_ne _ _ _ _ hjg, stateCount_setGroup]
      exact hdisjb j hj
  have hbbe : BitmapsBounded (setBitmapBit (clearBitmapBit (setGroup qb gi X)
      ER gi) s gi) :=
    setBitmapBit_bounded _ _ _ hgi (clearBitmapBit_bounded _ _ _
      (bounded_congr (setGroup_bitmaps _ _ _) hbbb))
  refine ⟨⟨?_, ?_⟩, ?_⟩
  · intro j hj
    rw [unblock_stateCount _ _ _ (bitmaps_lt_U64 _ hbbe) hdisje j hj]
    exact hdisje j hj
  · intro i hi
    have hi64 : i < 64 := by
      unfold QFQ_MAX_INDEX at hi
      omega
    rw [unblock_groups_eq, setBitmapBit_groups, clearBitmapBit_groups,
      unblock_stateCount _ _ _ (bitmaps_lt_U64 _ hbbe) hdisje i hi64]
    by_cases hig : i = gi
    · subst hig
      rw [setGroup_groups_self, hone]
      simp [hXfull]
    · rw [setGroup_groups_ne _ _ _ _ hig,
        stateCount_setBitmapBit_ne _ _ _ _ hig,
        stateCount_clearBitmapBit_ne _ _ _ _ hig, stateCount_setGroup]
      exact hfullb i hi hig
  · exact unblock_bounded _ _ _ _ (by decide) hbbe

theorem deq_tail_inv (qa : QfqSched) (gi oldF : Nat)
    (hgi : gi < QFQ_MAX_INDEX + 1)
    (hbba : BitmapsBounded qa)
    (hdisja : ∀ j, j < 64 → stateCount qa j ≤ 1)
    (hfulla : ∀ i, i < QFQ_MAX_INDEX + 1 → i ≠ gi →
      ((qa.groups i).full_slots ≠ 0 ↔ stateCount qa i = 1))
    (hbER : (qa.bitmaps ER).testBit gi = true)
    (hbIR : (qa.bitmaps IR).testBit gi = false)
    (hbEB : (qa.bitmaps EB).testBit gi = false)
    (hbIB : (qa.bitmaps IB).testBit gi = false)
    (hidxa : (qa.groups gi).index = gi)
    (hflta : (qa.groups gi).full_slots < U64) :
    QfqBitmapInv (qfq_deq_tail qa gi oldF) ∧
    BitmapsBounded (qfq_deq_tail qa gi oldF) := by
  have hcnt1 : stateCount qa gi = 1 := count_one_of_er qa gi hbER hbIR hbEB hbIB
  have hsbm : (qfq_slot_scan qa gi).1.bitmaps = qa.bitmaps :=
    slot_scan_bitmaps qa gi
  have hsidx : ((qfq_slot_scan qa gi).1.groups gi).index = gi := by
    rw [slot_scan_index]
    exact hidxa
  unfold qfq_deq_tail
  dsimp only
  split
  · next heq =>
    have hfz : (qa.groups gi).full_slots = 0 := (slot_scan_none_iff qa gi).mp heq
    have hqb : (qfq_slot_scan qa gi).1 = qa := slot_scan_fst_of_zero qa gi hfz
    rw [hqb, clearBitmapBit_groups, hidxa]
    exact clearER_unblock_inv qa gi oldF hgi hfz hbba hdisja hfulla hbIR hbEB hbIB
  · next cid2 heq =>
    have hfne : (qa.groups gi).full_slots ≠ 0 := by
      intro h0
      have hn := (slot_scan_none_iff qa gi).mpr h0
      rw [hn] at heq
      exact Option.noConfusion heq
    have hsf := slot_scan_full qa gi hfne hflta
    have hQB_IR : ((qfq_slot_scan qa gi).1.bitmaps IR).testBit gi = false := by
      rw [hsbm]
      exact hbIR
    have hQB_EB : ((qfq_slot_scan qa gi).1.bitmaps EB).testBit gi = false := by
      rw [hsbm]
      exact hbEB
    have hQB_IB : ((qfq_slot_scan qa gi).1.bitmaps IB).testBit gi = false := by
      rw [hsbm]
      exact hbIB
    have hbbqb : BitmapsBounded (qfq_slot_scan qa gi).1 := bounded_congr hsbm hbba
    have hdisjqb : ∀ j, j < 64 → stateCount (qfq_slot_scan qa gi).1 j ≤ 1 := by
      intro j hj
      rw [stateCount_congr hsbm j]
      exact hdisja j hj
    have hfullqb : ∀ i, i < QFQ_MAX_INDEX + 1 → i ≠ gi →
        (((qfq_slot_scan qa gi).1.groups i).full_slots ≠ 0 ↔
          stateCount (qfq_slot_scan qa gi).1 i = 1) := by
      intro i hi hig
      rw [slot_scan_groups_ne _ _ _ hig, stateCount_congr hsbm i]
      exact hfulla i hi hig
    split
    · refine ⟨⟨hdisjqb, ?_⟩, hbbqb⟩
      intro i hi
      by_cases hig : i = gi
      · subst hig
        exact ⟨fun _ => by rw [stateCount_congr hsbm i]; exact hcnt1,
          fun _ => hsf.1⟩
      · exact hfullqb i hi hig
    · rw [setBitmapBit_groups, clearBitmapBit_groups, setGroup_groups_self]
      dsimp only
      rw [hsidx]
      exact setG_clearER_setB_unblock_inv _ gi _ _ oldF
        (qfq_calc_state_lt_four _ _) hgi hsf.1 hbbqb hdisjqb hfullqb
        hQB_IR hQB_EB hQB_IB

theorem deq_q5_inv (q : QfqSched) (gi cid len : Nat) (rest : List Nat)
    (hgi : gi < QFQ_MAX_INDEX + 1)
    (hdisjq : ∀ j, j < 64 → stateCount q j ≤ 1)
    (hfullq : ∀ i, i < QFQ_MAX_INDEX + 1 →
      ((q.groups i).full_slots ≠ 0 ↔ stateCount q i = 1))
    (hbbq : BitmapsBounded q)
    (hwfgi : (q.groups gi).index = gi)
    (hflt : (q.groups gi).full_slots < U64)
    (hbitER : (q.bitmaps ER).testBit gi = true) :
    QfqBitmapInv (qfq_deq_q5 q gi cid len rest) ∧
    BitmapsBounded (qfq_deq_q5 q gi cid len rest) := by
  have hgi64 : gi < 64 := by
    unfold QFQ_MAX_INDEX at hgi
    omega
  have hbits := er_bit_only q gi (hdisjq gi hgi64) hbitER
  have hq4bm := deq_q4_bitmaps q gi cid len rest
  have hq4ER : ((qfq_deq_q4pair q gi cid len rest).1.bitmaps ER).testBit gi =
      true := by
    rw [hq4bm]
    exact hbitER
  have hq4IR : ((qfq_deq_q4pair q gi cid len rest).1.bitmaps IR).testBit gi =
      false := by
    rw [hq4bm]
    exact hbits.1
  have hq4EB : ((qfq_deq_q4pair q gi cid len rest).1.bitmaps EB).testBit gi =
      false := by
    rw [hq4bm]
    exact hbits.2.1
  have hq4IB : ((qfq_deq_q4pair q gi cid len rest).1.bitmaps IB).testBit gi =
      false := by
    rw [hq4bm]
    exact hbits.2.2
  have hq4idx : ((qfq_deq_q4pair q gi cid len rest).1.groups gi).index = gi := by
    rw [deq_q4_index]
    exact hwfgi
  have hq4flt := deq_q4_full_lt q gi cid len rest hflt
  have hq4bb : BitmapsBounded (qfq_deq_q4pair q gi cid len rest).1 :=
    bounded_congr hq4bm hbbq
  have hq4disj : ∀ j, j < 64 →
      stateCount (qfq_deq_q4pair q gi cid len rest).1 j ≤ 1 := by
    intro j hj
    rw [stateCount_congr hq4bm j]
    exact hdisjq j hj
  have hq4full : ∀ i, i < QFQ_MAX_INDEX + 1 → i ≠ gi →
      (((qfq_deq_q4pair q gi cid len rest).1.groups i).full_slots ≠ 0 ↔
        stateCount (qfq_deq_q4pair q gi cid len rest).1 i = 1) := by
    intro i hi hig
    rw [deq_q4_groups_ne q gi cid len rest i hig, stateCount_congr hq4bm i]
    exact hfullq i hi
  unfold qfq_deq_q5
  dsimp only
  split
  · split
    · refine deq_tail_inv _ _ _ hgi ?_ ?_ ?_ ?_ ?_ ?_ ?_ ?_ ?_
      · exact bounded_congr hq4bm hbbq
      · intro j hj
        exact Eq.trans_le (stateCount_congr hq4bm j) (hdisjq j hj)
      · intro i hi hig
        show ((qfq_deq_q4pair q gi cid len rest).1.groups i).full_slots ≠ 0 ↔
          stateCount (qfq_deq_q4pair q gi cid len rest).1 i = 1
        exact hq4full i hi hig
      · exact hq4ER
      · exact hq4IR
      · exact hq4EB
      · exact hq4IB
      · exact hq4idx
      · exact hq4flt
    · exact deq_tail_inv _ _ _ hgi hq4bb hq4disj hq4full hq4ER hq4IR hq4EB
        hq4IB hq4idx hq4flt
  · next hres =>
    rcases deq_q4_snd_or q gi cid len rest with h | h
    · exact absurd h hres
    · split
      · refine ⟨inv_of_eq_bitmaps_groups _ q ?_ ?_ ⟨hdisjq, hfullq⟩, ?_⟩
        · exact hq4bm
        · exact h
        · exact bounded_congr hq4bm hbbq
      · exact ⟨inv_of_eq_bitmaps_groups _ q hq4bm h ⟨hdisjq, hfullq⟩,
          bounded_congr hq4bm hbbq⟩

theorem dequeue_inv (q0 : QfqSched) (now : Nat)
    (hinv : QfqBitmapInv q0) (hwf : GroupsWF q0) (hbb : BitmapsBounded q0)
    (hfs : ∀ i, i < QFQ_MAX_INDEX + 1 → (q0.groups i).full_slots < U64) :
    QfqBitmapInv (qfq_dequeue q0 now).1 := by
  obtain ⟨hdisj, hfull⟩ := hinv
  have hfacts : (∀ j, j < 64 →
      stateCount (qfq_update_system_time q0 now) j = stateCount q0 j) ∧
      (qfq_update_system_time q0 now).groups = q0.groups ∧
      BitmapsBounded (qfq_update_system_time q0 now) := by
    rcases ust_shape q0 now with heq | ⟨r, hrbm, hrg, hrc, heq⟩
    · rw [heq]
      exact ⟨fun j hj => rfl, rfl, hbb⟩
    · have hrbb : BitmapsBounded r := bounded_congr hrbm hbb
      have hrdisj : ∀ j, j < 64 → stateCount r j ≤ 1 := by
        intro j hj
        rw [stateCount_congr hrbm j]
        exact hdisj j hj
      rw [heq]
      refine ⟨?_, ?_, ?_⟩
      · intro j hj
        rw [update_eligible_stateCount r _ (bitmaps_lt_U64 r hrbb) hrdisj j hj,
          stateCount_congr hrbm j]
      · rw [update_eligible_groups, hrg]
      · exact update_eligible_bounded r _ _ (by decide) hrbb
  obtain ⟨hcnt_eq, hgroups_eq, hbbq⟩ := hfacts
  have hdisjq : ∀ j, j < 64 →
      stateCount (qfq_update_system_time q0 now) j ≤ 1 := by
    intro j hj
    rw [hcnt_eq j hj]
    exact hdisj j hj
  have hfullq : ∀ i, i < QFQ_MAX_INDEX + 1 →
      (((qfq_update_system_time q0 now).groups i).full_slots ≠ 0 ↔
        stateCount (qfq_update_system_time q0 now) i = 1) := by
    intro i hi
    have hi64 : i < 64 := by
      unfold QFQ_MAX_INDEX at hi
      omega
    rw [hcnt_eq i hi64, congrFun hgroups_eq i]
    exact hfull i hi
  rcases deq_fst_cases q0 now with heq | ⟨gi, cid, len, rest, v, hgieq, hER, heq⟩
  · rw [heq]
    exact ⟨hdisjq, hfullq⟩
  · rw [heq]
    have hgi : gi < QFQ_MAX_INDEX + 1 := by
      rw [hgieq]
      exact ffs0_lt_of_lt_two_pow hER (hbbq ER (by decide)) (by decide)
    have hbit : ((qfq_update_system_time q0 now).bitmaps ER).testBit gi =
        true := by
      rw [hgieq]
      exact ffs0_testBit hER (bitmaps_lt_U64 _ hbbq ER (by decide))
    have h5 := deq_q5_inv (qfq_update_system_time q0 now) gi cid len rest
      hgi hdisjq hfullq hbbq
      (by rw [congrFun hgroups_eq gi]; exact hwf gi hgi)
      (by rw [congrFun hgroups_eq gi]; exact hfs gi hgi)
      hbit
    exact inv_update_eligible _ _ h5.2 h5.1

/-- C1 (corrected): from a state satisfying the bitmap invariant (four
pairwise-disjoint state bitmaps, and `full_slots ≠ 0` iff the group is
filed in exactly one of them), together with the structural facts
established by qfq_init_qdisc (group `i` stores index `i`, bitmaps only
carry bits 0..19, `full_slots` fits in 64 bits), the invariant is
preserved by qfq_deactivate_class and by qfq_dequeue; it is preserved by
qfq_activate_class only under the additional premise that when the
activation takes the slot-rotate path (the group start exceeds the
class's new start), the group is not currently filed in ER or EB.
Without that premise activation can double-file an ER group, see the
counterexample. -/
theorem qfq_C1_bitmap_inv_preservation (q : QfqSched) (cid pkt_len now : Nat)
    (hinv : QfqBitmapInv q) (hwf : GroupsWF q) (hbb : BitmapsBounded q)
    (hcl : (q.classes cid).grp < QFQ_MAX_INDEX + 1)
    (hfs : ∀ i, i < QFQ_MAX_INDEX + 1 → (q.groups i).full_slots < U64)
    (hside : qfq_gt (q.groups (q.classes cid).grp).S
        (qfq_update_start_S q (q.classes cid)) = true →
      (q.bitmaps ER).testBit (q.classes cid).grp = false ∧
      (q.bitmaps EB).testBit (q.classes cid).grp = false) :
    QfqBitmapInv (qfq_deactivate_class q cid) ∧
    QfqBitmapInv (qfq_dequeue q now).1 ∧
    QfqBitmapInv (qfq_activate_class q cid pkt_len) :=
  ⟨deactivate_inv q cid hinv hwf hbb hcl hfs,
   dequeue_inv q now hinv hwf hbb hfs,
   activate_inv q cid pkt_len hinv hwf hbb hcl hside⟩

theorem qfq_C1_bitmap_inv_preservation_witness :
    QfqBitmapInv (qfq_deactivate_class qfq_init_sched 0) ∧
    QfqBitmapInv (qfq_dequeue qfq_init_sched 5).1 ∧
    QfqBitmapInv (qfq_activate_class qfq_init_sched 0 100) :=
  qfq_C1_bitmap_inv_preservation qfq_init_sched 0 100 5 (by decide) (by decide)
    (by decide) (by decide) (by decide) (by decide)

/-- C9: qfq_change_class returns -EINVAL with the scheduler state
unchanged for every request whose weight attribute exceeds
QFQ_MAX_WEIGHT = 2^QFQ_MAX_WSHIFT, for every request whose updated
weight sum would exceed QFQ_MAX_WSUM, and for every request whose lmax
attribute is 0 or exceeds 2^QFQ_MTU_SHIFT. -/
theorem change_alt (q : QfqSched) (clOpt : Option Nat) (newCid : Nat)
    (weightOpt lmaxOpt : Option Nat) (hasRate estErr : Bool) :
    qfq_change_class q clOpt newCid weightOpt lmaxOpt hasRate estErr =
      qfq_change_class_alt q clOpt newCid weightOpt lmaxOpt hasRate estErr := rfl

theorem qfq_C9_change_class_rejections (q : QfqSched) (clOpt : Option Nat)
    (newCid : Nat) (weightOpt lmaxOpt : Option Nat) (hasRate estErr : Bool) :
    (∀ w, weightOpt = some w → w > 2 ^ QFQ_MAX_WSHIFT →
      qfq_change_class q clOpt newCid weightOpt lmaxOpt hasRate estErr =
        (-22, q)) ∧
    (addU32Int q.wsum
        (Int.ofNat (ONE_FP /
            (if weightOpt.getD 1 ≠ 0 then ONE_FP / weightOpt.getD 1
             else ONE_FP + 1)) -
          (match clOpt with
           | some cid => Int.ofNat (ONE_FP / (q.classes cid).inv_w)
           | none => 0)) > QFQ_MAX_WSUM →
      qfq_change_class q clOpt newCid weightOpt lmaxOpt hasRate estErr =
        (-22, q)) ∧
    (∀ l, lmaxOpt = some l → (l = 0 ∨ l > 2 ^ QFQ_MTU_SHIFT) →
      qfq_change_class q clOpt newCid weightOpt lmaxOpt hasRate estErr =
        (-22, q)) := by
  refine ⟨?_, ?_, ?_⟩
  · intro w hw hgt
    subst hw
    rw [change_alt]
    unfold qfq_change_class_alt
    dsimp only
    simp [hgt]
  · intro hov
    rw [change_alt]
    unfold qfq_change_class_alt
    dsimp only
    split
    · rfl
    · rfl
  · intro l hl hbad
    subst hl
    rw [change_alt]
    unfold qfq_change_class_alt
    dsimp only
    split
    · rfl
    · by_cases hov : addU32Int q.wsum
          (Int.ofNat (ONE_FP /
              (if weightOpt.getD 1 ≠ 0 then ONE_FP / weightOpt.getD 1
               else ONE_FP + 1)) -
            (match clOpt with
             | some cid => Int.ofNat (ONE_FP / (q.classes cid).inv_w)
             | none => 0)) > QFQ_MAX_WSUM
      · rw [if_pos hov]
      · rw [if_neg hov, decide_eq_true hbad]
        rfl

theorem qfq_C9_change_class_rejections_witness :
    qfq_change_class qfq_init_sched none 1 (some (2 ^ 16 + 1)) none
        false false = (-22, qfq_init_sched) ∧
    qfq_change_class { qfq_init_sched with wsum := 131072 } none 1
        (some (2 ^ 16)) none false false =
      (-22, { qfq_init_sched with wsum := 131072 }) ∧
    qfq_change_class qfq_init_sched none 1 none (some 0) false false =
      (-22, qfq_init_sched) :=
  ⟨(qfq_C9_change_class_rejections qfq_init_sched none 1 (some (2 ^ 16 + 1))
      none false false).1 (2 ^ 16 + 1) rfl (by decide),
   (qfq_C9_change_class_rejections { qfq_init_sched with wsum := 131072 }
      none 1 (some (2 ^ 16)) none false false).2.1 (by decide),
   (qfq_C9_change_class_rejections qfq_init_sched none 1 none (some 0)
      false false).2.2 0 rfl (by decide)⟩

end QfqRL
